import Mathlib

/-!
Verification of the ModAI content-moderation pipeline.

Shallow embedding of the core components:
  * the rule-condition DSL evaluator of `src/core/RuleEngine.cpp`
    (`std::regex_search` with pattern `(\w+)\s*(>=|<=|>|<|==)\s*([\d.]+)`
    followed by `std::stod` on the captured numeric token),
  * the moderation orchestrator of `src/core/ModerationEngine.cpp`,
  * the content-addressed cache of `src/core/ResultCache.cpp`,
  * the sliding-window rate limiter of `src/network/RateLimiter.cpp`,
  * the backend JSON wire format of `backend/src/core/ContentItem.cpp`,
  * the retrying HTTP transport of `backend/src/network/CurlHttpClient.cpp`.

Modelling conventions: C++ `double` values are embedded as exact
rationals (`ℚ`); the literals `0.0001` and score thresholds are taken at
their decimal value.  C++ exceptions are embedded as `Except String`;
code that lets an exception escape is a function returning
`Except.error`.  `std::map` is embedded as an association list with
replace-or-append insertion, which has the same lookup semantics.
-/

deriving instance DecidableEq for Except

namespace ModAI

/-! ### Character classes of the ECMAScript regex used by the rule DSL -/

/-- `\w` of the condition regex: ASCII letters, digits and underscore. -/
def isWordChar (c : Char) : Bool :=
  (c ≥ 'a' && c ≤ 'z') || (c ≥ 'A' && c ≤ 'Z') || (c ≥ '0' && c ≤ '9') || c = '_'

/-- `\s` of the condition regex (ECMAScript whitespace, ASCII part). -/
def isSpaceChar (c : Char) : Bool :=
  c = ' ' || c = '\t' || c = '\n' || c = '\r' || c = '\x0b' || c = '\x0c'

/-- The character class `[\d.]` of the condition regex. -/
def isNumChar (c : Char) : Bool :=
  c.isDigit || c = '.'

/-- The five comparison operators of the condition DSL. -/
inductive CmpOp where
  | gt | ge | lt | le | eq
  deriving DecidableEq, Repr

/-- The ordered alternation `(>=|<=|>|<|==)` tried at the head of `cs`:
first alternative that matches wins, exactly as in ECMAScript regexes. -/
def opAt : List Char → Option (CmpOp × List Char)
  | '>' :: '=' :: r => some (.ge, r)
  | '>' :: r => some (.gt, r)
  | '<' :: '=' :: r => some (.le, r)
  | '<' :: r => some (.lt, r)
  | '=' :: '=' :: r => some (.eq, r)
  | _ => none

/-- One anchored attempt of the pattern `(\w+)\s*(>=|<=|>|<|==)\s*([\d.]+)`
at the head of `cs`.  Greedy `\w+`, `\s*` and `[\d.]+` never backtrack
usefully here (no operator starts with a word or space character and no
numeric character is an operator character), so maximal munch per piece
is exact. -/
def matchAt (cs : List Char) : Option (String × CmpOp × String) :=
  if cs.takeWhile isWordChar = [] then none
  else
    match opAt ((cs.dropWhile isWordChar).dropWhile isSpaceChar) with
    | none => none
    | some (op, r2) =>
      if (r2.dropWhile isSpaceChar).takeWhile isNumChar = [] then none
      else
        some (String.mk (cs.takeWhile isWordChar), op,
              String.mk ((r2.dropWhile isSpaceChar).takeWhile isNumChar))

/-- `std::regex_search`: try the pattern at each start position from the
left and return the first (leftmost) match. -/
def regexFind : List Char → Option (String × CmpOp × String)
  | [] => none
  | c :: t =>
    match matchAt (c :: t) with
    | some r => some r
    | none => regexFind t

/-- Value of a digit run, most significant first. -/
def digitsVal (ds : List Char) : ℚ :=
  ds.foldl (fun a c => a * 10 + (c.toNat - '0'.toNat : ℕ)) 0

/-- `std::stod` applied to a token drawn from `[\d.]+`: parses the
longest leading `digits [. digits]` prefix and throws
(`none` here) when that prefix is empty, e.g. on `"."` or `"..2"`. -/
def stodOpt (cs : List Char) : Option ℚ :=
  let ip := cs.takeWhile Char.isDigit
  let rest := cs.dropWhile Char.isDigit
  if ip = [] then
    match rest with
    | '.' :: r2 =>
      let fp := r2.takeWhile Char.isDigit
      if fp = [] then none
      else some (digitsVal fp / (10 : ℚ) ^ fp.length)
    | _ => none
  else
    match rest with
    | '.' :: r2 =>
      let fp := r2.takeWhile Char.isDigit
      some (digitsVal ip + digitsVal fp / (10 : ℚ) ^ fp.length)
    | _ => some (digitsVal ip)

/-! ### Data model (`include/core/ContentItem.h`) -/

/-- `struct AIDetection` with its in-class default member initializers. -/
structure AIDetection where
  model : String := ""
  ai_score : ℚ := 0
  label : String := ""
  confidence : ℚ := 0
  deriving DecidableEq, Repr

/-- `struct ModerationLabels`; `additional_labels` is a `std::map`
embedded as an association list with unique keys. -/
structure ModerationLabels where
  sexual : ℚ := 0
  violence : ℚ := 0
  hate : ℚ := 0
  drugs : ℚ := 0
  additional_labels : List (String × ℚ) := []
  deriving DecidableEq, Repr

/-- `struct ModerationResult`. -/
structure ModerationResult where
  provider : String := ""
  labels : ModerationLabels := {}
  deriving DecidableEq, Repr

/-- `struct Decision`. -/
structure Decision where
  auto_action : String := ""
  rule_id : String := ""
  threshold_triggered : Bool := false
  deriving DecidableEq, Repr

/-- `class ContentItem` (the fields the core pipeline reads/writes). -/
structure ContentItem where
  id : String := ""
  timestamp : String := ""
  source : String := "reddit"
  subreddit : String := ""
  author : Option String := none
  content_type : String := "text"
  text : Option String := none
  image_path : Option String := none
  ai_detection : AIDetection := {}
  moderation : ModerationResult := {}
  decision : Decision := {}
  schema_version : Int := 1
  deriving DecidableEq, Repr

/-- `struct Rule` (`include/core/RuleEngine.h`). -/
structure Rule where
  id : String := ""
  name : String := ""
  condition : String := ""
  action : String := ""
  subreddit : String := ""
  enabled : Bool := true
  deriving DecidableEq, Repr

/-! ### RuleEngine (`src/core/RuleEngine.cpp`) -/

/-- `RuleEngine::getValue`: fixed field lookup falling back to the
additional-labels map and then to `0.0`. -/
def getValue (field : String) (item : ContentItem) : ℚ :=
  if field = "ai_score" then item.ai_detection.ai_score
  else if field = "sexual" then item.moderation.labels.sexual
  else if field = "violence" then item.moderation.labels.violence
  else if field = "hate" then item.moderation.labels.hate
  else if field = "drugs" then item.moderation.labels.drugs
  else
    match item.moderation.labels.additional_labels.lookup field with
    | some v => v
    | none => 0

/-- Comparison step of `RuleEngine::evaluateCondition`; `==` uses the
`1e-4` epsilon of the source. -/
def applyCmp (op : CmpOp) (v t : ℚ) : Bool :=
  match op with
  | .gt => decide (v > t)
  | .ge => decide (v ≥ t)
  | .lt => decide (v < t)
  | .le => decide (v ≤ t)
  | .eq => decide (|v - t| < 1 / 10000)

/-- `RuleEngine::evaluateCondition`: regex-search the condition for the
first embedded comparison; no match yields `false`; a match whose
numeric token `std::stod` cannot parse throws (`Except.error`). -/
def evaluateCondition (rule : Rule) (item : ContentItem) : Except String Bool :=
  match regexFind rule.condition.data with
  | none => .ok false
  | some (field, op, tok) =>
    match stodOpt tok.data with
    | none => .error "stod: no conversion"
    | some threshold => .ok (applyCmp op (getValue field item) threshold)

/-- `RuleEngine::evaluate`: first enabled, scope-matching rule whose
condition holds; `"allow"` when none does.  An exception thrown by a
condition reached before any match propagates. -/
def evaluate : List Rule → ContentItem → Except String String
  | [], _ => .ok "allow"
  | r :: rs, item =>
    if r.enabled = false then evaluate rs item
    else if r.subreddit ≠ "" ∧ r.subreddit ≠ item.subreddit then evaluate rs item
    else
      match evaluateCondition r item with
      | .error e => .error e
      | .ok true => .ok r.action
      | .ok false => evaluate rs item

/-- `RuleEngine::getMatchingRules`: all enabled, scope-matching rules
whose condition holds, in list order; scans the whole list, so an
exception from any reached condition propagates. -/
def getMatchingRules : List Rule → ContentItem → Except String (List Rule)
  | [], _ => .ok []
  | r :: rs, item =>
    if r.enabled = false then getMatchingRules rs item
    else if r.subreddit ≠ "" ∧ r.subreddit ≠ item.subreddit then getMatchingRules rs item
    else
      match evaluateCondition r item with
      | .error e => .error e
      | .ok true => (getMatchingRules rs item).map (r :: ·)
      | .ok false => getMatchingRules rs item

/-- A rule matches an item: enabled, within subreddit scope (empty
scope is global), and the condition evaluates — without throwing — to
true.  This is the filter both `evaluate` and `getMatchingRules`
apply. -/
def ruleApplies (r : Rule) (item : ContentItem) : Bool :=
  r.enabled && (r.subreddit == "" || r.subreddit == item.subreddit) &&
    decide (evaluateCondition r item = .ok true)

/-- The five operator spellings of the condition DSL. -/
def opStrings : List (List Char) :=
  [['>', '='], ['<', '='], ['>'], ['<'], ['=', '=']]

/-- A condition string contains an embedded comparison: somewhere in
it a non-empty word-character run is followed (possibly across
whitespace) by one of the five operators and then a non-empty run of
digits and dots — the shape the pattern
`(\w+)\s*(>=|<=|>|<|==)\s*([\d.]+)` describes. -/
def CondDecomp (s : List Char) : Prop :=
  ∃ u f sp1 o sp2 num v,
    s = u ++ f ++ sp1 ++ o ++ sp2 ++ num ++ v ∧
    f ≠ [] ∧ (∀ c ∈ f, isWordChar c) ∧
    (∀ c ∈ sp1, isSpaceChar c) ∧
    o ∈ opStrings ∧
    (∀ c ∈ sp2, isSpaceChar c) ∧
    num ≠ [] ∧ (∀ c ∈ num, isNumChar c)

/-! ### JSON values (`nlohmann::json`)

Objects are embedded as association lists with unique keys;
`setKey` is `operator[]=` (replace or append), which has the same
lookup semantics as the sorted `std::map` the library uses.
`dump`/`parse` (the byte serialization) is taken as the identity on
this tree representation. -/

/-- JSON value tree. -/
inductive Json where
  | null
  | b (v : Bool)
  | num (v : ℚ)
  | str (v : String)
  | arr (xs : List Json)
  | obj (fields : List (String × Json))
  deriving Repr

/-- `j[key] = v` on an object's field list: replace or append. -/
def setKey (fields : List (String × Json)) (k : String) (v : Json) : List (String × Json) :=
  match fields with
  | [] => [(k, v)]
  | (k', v') :: rest => if k' = k then (k, v) :: rest else (k', v') :: setKey rest k v

/-- `j.contains(key)` (`false` on non-objects). -/
def jsonContains (j : Json) (k : String) : Bool :=
  match j with
  | .obj fs => (fs.lookup k).isSome
  | _ => false

/-- `j[key]` on a const object known to contain `key`. -/
def jsonIndex (j : Json) (k : String) : Json :=
  match j with
  | .obj fs => (fs.lookup k).getD .null
  | _ => .null

/-- `j.value(key, default)` at string type: missing key gives the
default, a non-string value (or non-object receiver) throws. -/
def valueStr (j : Json) (k : String) (d : String) : Except String String :=
  match j with
  | .obj fs =>
    match fs.lookup k with
    | none => .ok d
    | some (.str s) => .ok s
    | some _ => .error "json type error 302"
  | _ => .error "json type error 306"

/-- `j.value(key, default)` at numeric type. -/
def valueNum (j : Json) (k : String) (d : ℚ) : Except String ℚ :=
  match j with
  | .obj fs =>
    match fs.lookup k with
    | none => .ok d
    | some (.num q) => .ok q
    | some _ => .error "json type error 302"
  | _ => .error "json type error 306"

/-- `j.value(key, default)` at boolean type. -/
def valueBool (j : Json) (k : String) (d : Bool) : Except String Bool :=
  match j with
  | .obj fs =>
    match fs.lookup k with
    | none => .ok d
    | some (.b v) => .ok v
    | some _ => .error "json type error 302"
  | _ => .error "json type error 306"

/-! ### ResultCache (`src/core/ResultCache.cpp`)

The in-memory `std::map` and the append-only log file are the two
components of the state; `put` takes the current wall-clock second as
an explicit argument (`std::time(nullptr)` in the source). -/

/-- State of a `ResultCache`: the in-memory map plus the append-only
log file contents (one JSON record per appended line). -/
structure ResultCache where
  entries : List (String × Json) := []
  log : List Json := []

/-- `ResultCache::get`. -/
def cacheGet (c : ResultCache) (hash : String) : Option Json :=
  c.entries.lookup hash

/-- `ResultCache::append`: one `{hash, result, timestamp}` record is
written to the end of the log file. -/
def cacheAppend (c : ResultCache) (hash : String) (result : Json) (now : ℚ) : ResultCache :=
  { c with log := c.log ++ [Json.obj [("hash", .str hash), ("result", result), ("timestamp", .num now)]] }

/-- `ResultCache::put`: a hash already in memory makes the call a
no-op; otherwise the entry is stored and appended to the log. -/
def cachePut (c : ResultCache) (hash : String) (result : Json) (now : ℚ) : ResultCache :=
  if (c.entries.lookup hash).isSome then c
  else cacheAppend { c with entries := c.entries ++ [(hash, result)] } hash result now

/-! ### Detector capabilities (`include/detectors/*.h`) -/

/-- `struct TextDetectResult`. -/
structure TextDetectResult where
  ai_score : ℚ := 0
  label : String := ""
  confidence : ℚ := 0
  deriving DecidableEq, Repr

/-- `struct TextModerationResult`: ordered (label, confidence) pairs. -/
structure TextModerationResult where
  labels : List (String × ℚ) := []
  deriving DecidableEq, Repr

/-- `struct VisualModerationResult`: label → confidence map. -/
structure VisualModerationResult where
  labels : List (String × ℚ) := []
  deriving DecidableEq, Repr

/-- The collaborators `ModerationEngine::processItem` calls into.
Detector calls that may throw a C++ exception are `Except`-valued;
`readFile` is `QFile::open`+`readAll` (`none` = could not open);
`hashHex` is the SHA-256 hex digest of the file bytes; `storageOk`
says whether `Storage::saveContent` succeeds or throws. -/
structure DetectorEnv where
  textDetector : String → Except String TextDetectResult
  textModerator : String → Except String TextModerationResult
  imageModerator : List Nat → String → Except String VisualModerationResult
  readFile : String → Option (List Nat)
  hashHex : List Nat → String
  storageOk : Bool := true

/-- `std::map::operator[]=` on the additional-labels map. -/
def mapInsert (m : List (String × ℚ)) (k : String) (v : ℚ) : List (String × ℚ) :=
  match m with
  | [] => [(k, v)]
  | (k', v') :: rest => if k' = k then (k, v) :: rest else (k', v') :: mapInsert rest k v

/-- One iteration of the label-mapping loop of
`ModerationEngine::processItem`: a (label, confidence) pair lands in
the named slot when the label is one of the four known names and in
the additional-labels map otherwise. -/
def applyLabelPair (acc : ModerationLabels) (p : String × ℚ) : ModerationLabels :=
  if p.1 = "sexual" then { acc with sexual := p.2 }
  else if p.1 = "violence" then { acc with violence := p.2 }
  else if p.1 = "hate" then { acc with hate := p.2 }
  else if p.1 = "drugs" then { acc with drugs := p.2 }
  else { acc with additional_labels := mapInsert acc.additional_labels p.1 p.2 }

/-- The label-mapping loop shared by the text and image paths of
`processItem`, in list order. -/
def applyLabelPairs (ls : ModerationLabels) (pairs : List (String × ℚ)) : ModerationLabels :=
  pairs.foldl applyLabelPair ls

/-! ### ModerationEngine (`src/core/ModerationEngine.cpp`)

The image block sits in a `try { ... } catch (...) { log }`, so an
exception thrown inside it is swallowed and any mutations to `item`
made before the throw are kept; that is modelled by
`Except ContentItem ContentItem` whose `error` carries the partially
mutated item handed to the catch clause. -/

/-- Read one cached label into its slot; a JSON type error throws and
carries the item state at the throw. -/
def readLabel (labels : Json) (k : String) (set : ContentItem → ℚ → ContentItem)
    (item : ContentItem) : Except ContentItem ContentItem :=
  match valueNum labels k 0 with
  | .error _ => .error item
  | .ok v => .ok (set item v)

/-- The cache-hit arm: `provider` then the four named labels are read
from the cached JSON in statement order. -/
def readCachedModeration (j : Json) (item : ContentItem) : Except ContentItem ContentItem :=
  if jsonContains j "moderation" then
    let mod := jsonIndex j "moderation"
    match valueStr mod "provider" "hive" with
    | .error _ => .error item
    | .ok prov =>
      let item := { item with moderation.provider := prov }
      if jsonContains mod "labels" then
        let labels := jsonIndex mod "labels"
        do
          let item ← readLabel labels "sexual" (fun it v => { it with moderation.labels.sexual := v }) item
          let item ← readLabel labels "violence" (fun it v => { it with moderation.labels.violence := v }) item
          let item ← readLabel labels "hate" (fun it v => { it with moderation.labels.hate := v }) item
          let item ← readLabel labels "drugs" (fun it v => { it with moderation.labels.drugs := v }) item
          pure item
      else .ok item
  else .ok item

/-- The JSON record the engine caches after a fresh image analysis. -/
def moderationJson (item : ContentItem) : Json :=
  Json.obj [("moderation", Json.obj
    [("provider", .str item.moderation.provider),
     ("labels", Json.obj
       [("sexual", .num item.moderation.labels.sexual),
        ("violence", .num item.moderation.labels.violence),
        ("hate", .num item.moderation.labels.hate),
        ("drugs", .num item.moderation.labels.drugs)])])]

/-- The guarded image block of `processItem` (file read, hash, cache
lookup, detector call, cache write), including its `catch` clause:
the returned state is the state after the block, whether or not a
throw happened inside it. -/
def imageBlock (env : DetectorEnv) (cache : ResultCache) (now : ℚ) (item : ContentItem) :
    ContentItem × ResultCache :=
  match item.image_path with
  | none => (item, cache)
  | some path =>
    match env.readFile path with
    | none => (item, cache)
    | some bytes =>
      let hashStr := env.hashHex bytes
      match cacheGet cache hashStr with
      | some j =>
        match readCachedModeration j item with
        | .error it => (it, cache)
        | .ok it => (it, cache)
      | none =>
        match env.imageModerator bytes "image/jpeg" with
        | .error _ => (item, cache)
        | .ok res =>
          let item := { item with moderation.labels := applyLabelPairs item.moderation.labels res.labels }
          let item := { item with moderation.provider := "hive" }
          (item, cachePut cache hashStr (moderationJson item) now)

/-- Result of one `processItem` pass: the stamped item, the cache and
storage states after the pass, and the number of assignments the pass
made to `decision.auto_action`. -/
structure ProcResult where
  item : ContentItem
  cache : ResultCache
  storage : List ContentItem
  autoWrites : Nat

/-- The text block of `processItem` (AI text detection followed by
text moderation); it has no try/catch in the source, so a throwing
text detector or text moderator propagates out (`Except.error`). -/
def textBlock (env : DetectorEnv) (item : ContentItem) : Except String ContentItem := do
  let t := item.text.getD ""
  let textResult ← env.textDetector t
  let item := { item with ai_detection :=
    { model := "desklib/ai-text-detector-v1.01"
      ai_score := textResult.ai_score
      label := textResult.label
      confidence := textResult.confidence } }
  let textModResult ← env.textModerator t
  let item := { item with
    moderation.labels := applyLabelPairs item.moderation.labels textModResult.labels }
  pure { item with moderation.provider := "hive" }

/-- The rule-decision block of `processItem`: the first matching rule
(if any) supplies the action and rule id; otherwise the action is
`"allow"`.  `decision.auto_action` is assigned exactly once in either
arm. -/
def stampDecision (matchingRules : List Rule) (item : ContentItem) : ContentItem :=
  match matchingRules with
  | r :: _ =>
    { item with decision.auto_action := r.action, decision.rule_id := r.id,
                decision.threshold_triggered := true }
  | [] =>
    { item with decision.auto_action := "allow", decision.threshold_triggered := false }

/-- `ModerationEngine::processItem`: text detection (exceptions
propagate), guarded image moderation (exceptions swallowed), rule
evaluation via `getMatchingRules` (exceptions propagate), storage save
(exceptions swallowed), in source order. -/
def processItem (env : DetectorEnv) (rules : List Rule) (cache : ResultCache)
    (storage : List ContentItem) (now : ℚ) (item : ContentItem) : Except String ProcResult := do
  let item ←
    if item.content_type = "text" ∧ item.text.isSome then textBlock env item
    else pure item
  let (item, cache) :=
    if item.content_type = "image" ∧ item.image_path.isSome then
      imageBlock env cache now item
    else (item, cache)
  let matchingRules ← getMatchingRules rules item
  let item := stampDecision matchingRules item
  let storage := if env.storageOk then storage ++ [item] else storage
  pure { item := item, cache := cache, storage := storage, autoWrites := 1 }

/-! ### RateLimiter (`src/network/RateLimiter.cpp`)

`steady_clock` instants are embedded as milliseconds (`ℕ`); the
timestamp queue holds admission times, oldest first. -/

/-- Configuration of a `RateLimiter`. -/
structure RateLimiter where
  maxRequests : Nat
  timeWindow : Nat

/-- The timestamp queue guarded by the mutex. -/
structure RLState where
  requestTimes : List Nat := []
  deriving DecidableEq, Repr

/-- The eviction loop of `acquire`: pop from the front while the front
entry is strictly older than `now - timeWindow`. -/
def rlEvict (rl : RateLimiter) (now : Nat) (q : List Nat) : List Nat :=
  q.dropWhile (fun t => now - t > rl.timeWindow)

/-- `RateLimiter::acquire` at instant `now`: evict, then admit (and
record `now`) iff the queue is below `maxRequests`. -/
def acquire (rl : RateLimiter) (now : Nat) (st : RLState) : Bool × RLState :=
  let q := rlEvict rl now st.requestTimes
  if q.length < rl.maxRequests then (true, ⟨q ++ [now]⟩) else (false, ⟨q⟩)

namespace Backend

/-! ### HttpTransport (`backend/src/network/CurlHttpClient.cpp`)

One `curl_easy_perform` either completes with an HTTP status code or
fails at transport level; successive performs of the same logical
request are an oracle indexed by the attempt number.  Sleeps are
recorded as the list of delays in milliseconds. -/

/-- Outcome of one `curl_easy_perform`. -/
inductive CurlOutcome where
  | ok (code : Int) (body : String)
  | err (msg : String)
  deriving DecidableEq, Repr

/-- The `HttpResponse` fields the retry logic inspects (headers are
carried through untouched and omitted here). -/
structure HttpResponse where
  statusCode : Int := 0
  body : String := ""
  success : Bool := false
  errorMessage : String := ""
  deriving DecidableEq, Repr

/-- `CurlHttpClient::executeRequest` classification: on `CURLE_OK` the
status code is read and `success` is `2xx`; on a curl error the
response keeps its zero status code. -/
def executeRequest : CurlOutcome → HttpResponse
  | .ok code body =>
    { statusCode := code, body := body, success := decide (200 ≤ code ∧ code < 300) }
  | .err msg =>
    { statusCode := 0, success := false, errorMessage := msg }

/-- The `4xx`-except-`429` test of `post` (permanent client error). -/
def permanentClientError (r : HttpResponse) : Bool :=
  decide (400 ≤ r.statusCode) && decide (r.statusCode < 500) && decide (r.statusCode ≠ 429)

/-- The retry test of `post`: 429, 5xx or transport failure. -/
def retryable (r : HttpResponse) : Bool :=
  decide (r.statusCode = 429) || decide (500 ≤ r.statusCode) || decide (r.statusCode = 0)

/-- A response on which the `post` loop ends the current iteration
without retrying: a success, a permanent client error, or any other
response outside the retry set (the final `break`). -/
def stops (r : HttpResponse) : Bool :=
  r.success || permanentClientError r || !retryable r

/-- The retry loop of `CurlHttpClient::post`, unrolled on the number
of retries still allowed (`fuel = maxRetries - k` where `k` counts the
retries already made, which is also the index of the attempt being
executed).  Returns the response `post` returns, the number of
attempts performed, and the backoff delays slept
(`retryDelayMs * 2^(retries-1)` before retry number `retries`). -/
def postAux (oracle : Nat → CurlOutcome) (retryDelayMs : Nat) :
    Nat → Nat → HttpResponse × Nat × List Nat
  | k, 0 =>
    if (executeRequest (oracle k)).success then (executeRequest (oracle k), k + 1, [])
    else if permanentClientError (executeRequest (oracle k)) then
      (executeRequest (oracle k), k + 1, [])
    else (executeRequest (oracle k), k + 1, [])
  | k, fuel' + 1 =>
    if (executeRequest (oracle k)).success then (executeRequest (oracle k), k + 1, [])
    else if permanentClientError (executeRequest (oracle k)) then
      (executeRequest (oracle k), k + 1, [])
    else if retryable (executeRequest (oracle k)) then
      ((postAux oracle retryDelayMs (k + 1) fuel').1,
       (postAux oracle retryDelayMs (k + 1) fuel').2.1,
       retryDelayMs * 2 ^ k :: (postAux oracle retryDelayMs (k + 1) fuel').2.2)
    else (executeRequest (oracle k), k + 1, [])

/-- `CurlHttpClient::post`: the loop starting with `retries = 0`. -/
def post (oracle : Nat → CurlOutcome) (maxRetries retryDelayMs : Nat) :
    HttpResponse × Nat × List Nat :=
  postAux oracle retryDelayMs 0 maxRetries

/-- `CurlHttpClient::get`: one `curl_easy_perform`, classified and
returned as is — the source has no loop here.  Result shaped like
`post`'s for comparison: (response, attempts performed, sleeps). -/
def getRequest (oracle : Nat → CurlOutcome) : HttpResponse × Nat × List Nat :=
  (executeRequest (oracle 0), 1, [])

/-- Constructor default `maxRetries_`. -/
def defaultMaxRetries : Nat := 3

/-- Constructor default `retryDelayMs_`. -/
def defaultRetryDelayMs : Nat := 1000

/-! ### Backend ContentItem wire format
(`backend/include/core/ContentItem.h`, `backend/src/core/ContentItem.cpp`)

The backend data model adds three more named label slots and the human
review fields; only the fields `toJson` writes matter for the wire
round-trip. -/

/-- backend `struct ModerationLabels`. -/
structure ModerationLabels where
  sexual : ℚ := 0
  violence : ℚ := 0
  hate : ℚ := 0
  drugs : ℚ := 0
  harassment : ℚ := 0
  self_harm : ℚ := 0
  illicit : ℚ := 0
  additional_labels : List (String × ℚ) := []
  deriving DecidableEq, Repr

/-- backend `struct ModerationResult`. -/
structure ModerationResult where
  provider : String := ""
  labels : ModerationLabels := {}
  deriving DecidableEq, Repr

/-- backend `struct Decision` (human review fields included). -/
structure Decision where
  auto_action : String := ""
  rule_id : String := ""
  threshold_triggered : Bool := false
  human_decision : String := ""
  human_reviewer : String := ""
  human_notes : String := ""
  human_review_timestamp : Int := 0
  deriving DecidableEq, Repr

/-- backend `class ContentItem` (serialized fields; the freshly
generated UUID and timestamp of the default constructor are opaque
strings and irrelevant to the wire format, which overwrites them). -/
structure ContentItem where
  id : String := ""
  timestamp : String := ""
  source : String := "reddit"
  subreddit : String := ""
  author : Option String := none
  content_type : String := "text"
  text : Option String := none
  image_path : Option String := none
  ai_detection : AIDetection := {}
  moderation : ModerationResult := {}
  decision : Decision := {}
  schema_version : ℚ := 1
  deriving DecidableEq, Repr

/-- `ContentItem::toJson` (up to `dump`, which serializes this tree):
the named label slots are written first, then every additional label
is written into the same `labels` object with `operator[]`, replacing
a named slot on key collision. -/
def ContentItem.toJson (it : ContentItem) : Json :=
  let labels0 : List (String × Json) :=
    [("sexual", .num it.moderation.labels.sexual),
     ("violence", .num it.moderation.labels.violence),
     ("hate", .num it.moderation.labels.hate),
     ("drugs", .num it.moderation.labels.drugs)]
  let labels := it.moderation.labels.additional_labels.foldl
    (fun fs p => setKey fs p.1 (.num p.2)) labels0
  Json.obj
    [("id", .str it.id),
     ("timestamp", .str it.timestamp),
     ("source", .str it.source),
     ("subreddit", .str it.subreddit),
     ("author", match it.author with | some a => .str a | none => .null),
     ("content_type", .str it.content_type),
     ("text", match it.text with | some t => .str t | none => .null),
     ("image_path", match it.image_path with | some p => .str p | none => .null),
     ("ai_detection", .obj
       [("model", .str it.ai_detection.model),
        ("ai_score", .num it.ai_detection.ai_score),
        ("label", .str it.ai_detection.label),
        ("confidence", .num it.ai_detection.confidence)]),
     ("moderation", .obj
       [("provider", .str it.moderation.provider),
        ("labels", .obj labels)]),
     ("decision", .obj
       [("auto_action", .str it.decision.auto_action),
        ("rule_id", .str it.decision.rule_id),
        ("threshold_triggered", .b it.decision.threshold_triggered)]),
     ("schema_version", .num it.schema_version)]

/-- The optional-string reads of `fromJson`:
`if (j.contains(k) && !j[k].is_null()) x = j[k].get<string>()`. -/
def optStr (j : Json) (k : String) : Except String (Option String) :=
  if jsonContains j k then
    match jsonIndex j k with
    | .null => .ok none
    | .str s => .ok (some s)
    | _ => .error "json type error 302"
  else .ok none

/-- The additional-labels loop of `fromJson`: every numeric field of
the `labels` object other than the four named ones. -/
def extraLabels (labels : Json) : List (String × ℚ) :=
  match labels with
  | .obj fs =>
    fs.foldl
      (fun acc p =>
        if p.1 ≠ "sexual" ∧ p.1 ≠ "violence" ∧ p.1 ≠ "hate" ∧ p.1 ≠ "drugs" then
          match p.2 with
          | .num q => mapInsert acc p.1 q
          | _ => acc
        else acc)
      []
  | _ => []

set_option maxHeartbeats 1000000 in
/-- `ContentItem::fromJson` (after `parse`, which reads this tree):
field reads in source order; a type mismatch throws out of the
function. -/
def ContentItem.fromJson (j : Json) : Except String ContentItem := do
  let it : ContentItem := {}
  let id ← valueStr j "id" ""
  let timestamp ← valueStr j "timestamp" ""
  let source ← valueStr j "source" "reddit"
  let subreddit ← valueStr j "subreddit" ""
  let author ← optStr j "author"
  let content_type ← valueStr j "content_type" "text"
  let text ← optStr j "text"
  let image_path ← optStr j "image_path"
  let it := { it with id := id, timestamp := timestamp, source := source,
                      subreddit := subreddit, author := author, content_type := content_type,
                      text := text, image_path := image_path }
  let it ←
    if jsonContains j "ai_detection" then do
      let ad := jsonIndex j "ai_detection"
      let model ← valueStr ad "model" ""
      let ai_score ← valueNum ad "ai_score" 0
      let label ← valueStr ad "label" ""
      let confidence ← valueNum ad "confidence" 0
      pure { it with ai_detection :=
        { model := model, ai_score := ai_score, label := label, confidence := confidence } }
    else pure it
  let it ←
    if jsonContains j "moderation" then do
      let mod := jsonIndex j "moderation"
      let provider ← valueStr mod "provider" ""
      let it := { it with moderation.provider := provider }
      if jsonContains mod "labels" then do
        let labels := jsonIndex mod "labels"
        let sexual ← valueNum labels "sexual" 0
        let violence ← valueNum labels "violence" 0
        let hate ← valueNum labels "hate" 0
        let drugs ← valueNum labels "drugs" 0
        let ls := it.moderation.labels
        let ls := { ls with sexual := sexual }
        let ls := { ls with violence := violence }
        let ls := { ls with hate := hate }
        let ls := { ls with drugs := drugs }
        let ls := { ls with additional_labels := extraLabels labels }
        pure { it with moderation.labels := ls }
      else pure it
    else pure it
  let it ←
    if jsonContains j "decision" then do
      let dec := jsonIndex j "decision"
      let auto_action ← valueStr dec "auto_action" "allow"
      let rule_id ← valueStr dec "rule_id" ""
      let threshold_triggered ← valueBool dec "threshold_triggered" false
      let dcs := it.decision
      let dcs := { dcs with auto_action := auto_action }
      let dcs := { dcs with rule_id := rule_id }
      let dcs := { dcs with threshold_triggered := threshold_triggered }
      pure { it with decision := dcs }
    else pure it
  let schema_version ← valueNum j "schema_version" 1
  pure { it with schema_version := schema_version }

end Backend

/-! ## Theorems -/

section

attribute [local semireducible] Rat.add Rat.sub Rat.mul Rat.inv

/-- A key absent from the first list is looked up in the second. -/
lemma lookup_append_of_none {β : Type} (l1 l2 : List (String × β)) (k : String)
    (h : l1.lookup k = none) : (l1 ++ l2).lookup k = l2.lookup k := by
  induction l1 with
  | nil => simp
  | cons p rest ih =>
    simp only [List.lookup, List.cons_append] at h ⊢
    cases hk : (k == p.1) with
    | true => simp [hk] at h
    | false => simp only [hk] at h ⊢; exact ih h

/-- **C6**: `ResultCache::put` is write-once per hash.  On a cache not
yet holding `h`, `put(h, r1)` followed by `put(h, r2)` leaves `get(h)`
returning `r1`, and the second `put` is a complete no-op: it neither
overwrites the in-memory entry nor appends a record to the log file. -/
theorem cachePut_write_once (c : ResultCache) (h : String) (r1 r2 : Json) (t1 t2 : ℚ)
    (habsent : cacheGet c h = none) (hne : r1 ≠ r2) :
    cacheGet (cachePut (cachePut c h r1 t1) h r2 t2) h = some r1 ∧
    cachePut (cachePut c h r1 t1) h r2 t2 = cachePut c h r1 t1 := by
  have habs : c.entries.lookup h = none := habsent
  have hstep : cachePut c h r1 t1 =
      { entries := c.entries ++ [(h, r1)],
        log := c.log ++ [Json.obj [("hash", .str h), ("result", r1), ("timestamp", .num t1)]] } := by
    simp [cachePut, cacheAppend, habs]
  have hl : (c.entries ++ [(h, r1)]).lookup h = some r1 := by
    rw [lookup_append_of_none _ _ _ habs]
    simp [List.lookup]
  have hnoop : cachePut (cachePut c h r1 t1) h r2 t2 = cachePut c h r1 t1 := by
    rw [hstep]
    simp [cachePut, hl]
  refine ⟨?_, hnoop⟩
  rw [hnoop, hstep]
  exact hl

/-- Witness for C6 at a concrete cache, hash and pair of distinct
results. -/
theorem cachePut_write_once_witness :
    cacheGet (cachePut (cachePut {} "h" (.str "a") 0) "h" (.str "b") 1) "h" = some (.str "a") ∧
    cachePut (cachePut {} "h" (.str "a") 0) "h" (.str "b") 1 = cachePut {} "h" (.str "a") 0 :=
  cachePut_write_once {} "h" (.str "a") (.str "b") 0 1 rfl
    (fun hv => absurd (Json.str.inj hv) (by decide))

/-- **C8**: the sliding-window rate limiter.  With `maxRequests`
admissions recorded inside the current window, the next `acquire`
within the window returns `false` and records nothing; at an instant
past the window of every recorded admission, the stale entries are
evicted and `acquire` admits again. -/
theorem rateLimiter_window (rl : RateLimiter) (st : RLState) (now later : Nat)
    (hfull : st.requestTimes.length = rl.maxRequests)
    (hfresh : ∀ t ∈ st.requestTimes, now - t ≤ rl.timeWindow)
    (hstale : ∀ t ∈ st.requestTimes, rl.timeWindow < later - t)
    (hpos : 0 < rl.maxRequests) :
    acquire rl now st = (false, st) ∧ (acquire rl later st).1 = true := by
  constructor
  · have hkeep : rlEvict rl now st.requestTimes = st.requestTimes := by
      unfold rlEvict
      rw [List.dropWhile_eq_self_iff]
      intro hl
      have hh := hfresh _ (List.get_mem st.requestTimes 0 hl)
      simp only [decide_eq_true_eq, gt_iff_lt]
      exact Nat.not_lt.mpr hh
    unfold acquire
    rw [hkeep]
    have hnot : ¬ (st.requestTimes.length < rl.maxRequests) := by omega
    simp [hnot]
  · have hdrop : rlEvict rl later st.requestTimes = [] := by
      unfold rlEvict
      rw [List.dropWhile_eq_nil_iff]
      intro t ht
      have := hstale t ht
      simp
      omega
    unfold acquire
    rw [hdrop]
    simp [hpos]

/-- Witness for C8: limiter of 2 requests per 10ms, saturated at
instants 0 and 1, refused at instant 2, admitting again at 100. -/
theorem rateLimiter_window_witness :
    acquire ⟨2, 10⟩ 2 ⟨[0, 1]⟩ = (false, ⟨[0, 1]⟩) ∧ (acquire ⟨2, 10⟩ 100 ⟨[0, 1]⟩).1 = true :=
  rateLimiter_window ⟨2, 10⟩ ⟨[0, 1]⟩ 2 100 (by decide) (by decide) (by decide) (by decide)

/-- **C5**: the two `RuleEngine` entry points agree.  Whenever
`getMatchingRules` returns (without throwing) a non-empty list,
`evaluate` returns the head's action; whenever it returns the empty
list, `evaluate` returns `"allow"`. -/
theorem evaluate_agrees_getMatchingRules (rules : List Rule) (item : ContentItem)
    (l : List Rule) (h : getMatchingRules rules item = .ok l) :
    (∀ r tl, l = r :: tl → evaluate rules item = .ok r.action) ∧
    (l = [] → evaluate rules item = .ok "allow") := by
  induction rules generalizing l with
  | nil =>
    rw [getMatchingRules] at h
    cases h
    exact ⟨fun r tl hrt => (by cases hrt), fun w => rfl⟩
  | cons r rs ih =>
    rw [getMatchingRules] at h
    rw [evaluate]
    by_cases hen : r.enabled = false
    · rw [if_pos hen] at h
      rw [if_pos hen]
      exact ih l h
    · rw [if_neg hen] at h
      rw [if_neg hen]
      by_cases hsc : r.subreddit ≠ "" ∧ r.subreddit ≠ item.subreddit
      · rw [if_pos hsc] at h
        rw [if_pos hsc]
        exact ih l h
      · rw [if_neg hsc] at h
        rw [if_neg hsc]
        cases hc : evaluateCondition r item with
        | error e => rw [hc] at h; cases h
        | ok b =>
          rw [hc] at h
          cases b with
          | false => exact ih l h
          | true =>
            cases hgm : getMatchingRules rs item with
            | error e => rw [hgm] at h; cases h
            | ok l' =>
              rw [hgm] at h
              cases h
              refine ⟨fun r' tl hrt => ?_, fun hnil => by cases hnil⟩
              cases hrt
              rfl

/-- Witness for C5: two threshold rules, an item matching both; the
head of the matching list dictates `evaluate`'s result. -/
theorem evaluate_agrees_getMatchingRules_witness :
    evaluate
      [{ id := "R1", condition := "ai_score > 0.9", action := "block" },
       { id := "R2", condition := "ai_score > 0.5", action := "review" }]
      { ai_detection := { ai_score := 95 / 100 } } = .ok "block" :=
  (evaluate_agrees_getMatchingRules _ _
    [{ id := "R1", condition := "ai_score > 0.9", action := "block" },
     { id := "R2", condition := "ai_score > 0.5", action := "review" }]
    (by decide)).1 _ _ rfl

/-- Counterexample to **C4** as stated: on the rule set holding the
single enabled, globally scoped rule with condition `"x > ."`, no
rule's condition evaluates to true, yet `evaluate` does not return
`"allow"` (nor any action): the regex matches `x > .` and
`std::stod(".")` throws `std::invalid_argument`, which propagates out
of `evaluate`. -/
theorem evaluate_throws_on_unparsable_numeric_token :
    evaluate [{ id := "R", condition := "x > .", action := "block" }] {} =
      .error "stod: no conversion" ∧
    evaluate [{ id := "R", condition := "x > .", action := "block" }] {} ≠ .ok "allow" ∧
    evaluate [{ id := "R", condition := "x > .", action := "block" }] {} ≠ .ok "block" := by
  decide

/-- `evaluate` computes the first rule passing the `ruleApplies`
filter, provided no reached condition throws. -/
lemma evaluate_eq_find (rules : List Rule) (item : ContentItem)
    (hok : ∀ r ∈ rules, ∃ b, evaluateCondition r item = .ok b) :
    evaluate rules item = .ok
      (match rules.find? (fun r => ruleApplies r item) with
       | some r => r.action
       | none => "allow") := by
  induction rules with
  | nil => rfl
  | cons r rs ih =>
    obtain ⟨b, hb⟩ := hok r (List.mem_cons_self r rs)
    have hok2 : ∀ r' ∈ rs, ∃ b, evaluateCondition r' item = .ok b :=
      fun r' hr' => hok r' (List.mem_cons_of_mem r hr')
    rw [evaluate]
    by_cases hen : r.enabled = false
    · have happ : ruleApplies r item = false := by simp [ruleApplies, hen]
      rw [if_pos hen,
          List.find?_cons_of_neg (p := fun r => ruleApplies r item) _ (by simp [happ]),
          ih hok2]
    · rw [if_neg hen]
      have hentrue : r.enabled = true := by
        cases hv : r.enabled with
        | false => exact absurd hv hen
        | true => rfl
      by_cases hsc : r.subreddit ≠ "" ∧ r.subreddit ≠ item.subreddit
      · have happ : ruleApplies r item = false := by
          simp [ruleApplies, hsc.1, hsc.2]
        rw [if_pos hsc,
            List.find?_cons_of_neg (p := fun r => ruleApplies r item) _ (by simp [happ]),
            ih hok2]
      · rw [if_neg hsc]
        have hscope : (r.subreddit == "" || r.subreddit == item.subreddit) = true := by
          rcases not_and_or.mp hsc with hs | hs
          · simp [not_not.mp hs]
          · simp [not_not.mp hs]
        rw [hb]
        cases b with
        | true =>
          have happ : ruleApplies r item = true := by
            simp [ruleApplies, hentrue, hscope, hb]
          rw [List.find?_cons_of_pos (p := fun r => ruleApplies r item) _ happ]
        | false =>
          have happ : ruleApplies r item = false := by
            simp [ruleApplies, hb]
          rw [List.find?_cons_of_neg (p := fun r => ruleApplies r item) _ (by simp [happ])]
          exact ih hok2

/-- **C4** amended: provided every rule's condition evaluates without
throwing (the claim's statement is silent about conditions whose
matched numeric token `stod` rejects, on which `evaluate` throws
instead of returning), `evaluate` returns the action of the first
enabled, scope-matching rule whose condition is true, and `"allow"`
when no rule matches; the three concrete rule-precedence instances of
the claim hold as stated. -/
theorem evaluate_first_match (rules : List Rule) (item : ContentItem)
    (hok : ∀ r ∈ rules, ∃ b, evaluateCondition r item = .ok b) :
    (∀ r, rules.find? (fun r => ruleApplies r item) = some r →
      evaluate rules item = .ok r.action) ∧
    (rules.find? (fun r => ruleApplies r item) = none →
      evaluate rules item = .ok "allow") ∧
    evaluate
      [{ id := "R1", condition := "ai_score > 0.9", action := "block" },
       { id := "R2", condition := "ai_score > 0.5", action := "review" }]
      { ai_detection := { ai_score := 95 / 100 } } = .ok "block" ∧
    evaluate
      [{ id := "R1", condition := "ai_score > 0.9", action := "block" },
       { id := "R2", condition := "ai_score > 0.5", action := "review" }]
      { ai_detection := { ai_score := 6 / 10 } } = .ok "review" ∧
    evaluate
      [{ id := "R1", condition := "ai_score > 0.9", action := "block" },
       { id := "R2", condition := "ai_score > 0.5", action := "review" }]
      { ai_detection := { ai_score := 1 / 10 } } = .ok "allow" := by
  refine ⟨?_, ?_, by decide, by decide, by decide⟩
  · intro r hr
    rw [evaluate_eq_find rules item hok, hr]
  · intro hn
    rw [evaluate_eq_find rules item hok, hn]

/-- Witness for C4 at the claim's own concrete rule set: the item
with ai_score 0.6 skips R1, matches R2, and `evaluate` returns
`"review"`. -/
theorem evaluate_first_match_witness :
    evaluate
      [{ id := "R1", condition := "ai_score > 0.9", action := "block" },
       { id := "R2", condition := "ai_score > 0.5", action := "review" }]
      { ai_detection := { ai_score := 6 / 10 } } = .ok "review" :=
  (evaluate_first_match
    [{ id := "R1", condition := "ai_score > 0.9", action := "block" },
     { id := "R2", condition := "ai_score > 0.5", action := "review" }]
    { ai_detection := { ai_score := 6 / 10 } } (by decide)).1
    { id := "R2", condition := "ai_score > 0.5", action := "review" } (by decide)

/-- A successful `opAt` splits off one operator spelling. -/
lemma opAt_some {r : List Char} {o : CmpOp} {r2 : List Char}
    (h : opAt r = some (o, r2)) : ∃ oc, oc ∈ opStrings ∧ r = oc ++ r2 := by
  unfold opAt at h
  split at h
  · cases h; exact ⟨['>', '='], by simp [opStrings], rfl⟩
  · cases h; exact ⟨['>'], by simp [opStrings], rfl⟩
  · cases h; exact ⟨['<', '='], by simp [opStrings], rfl⟩
  · cases h; exact ⟨['<'], by simp [opStrings], rfl⟩
  · cases h; exact ⟨['=', '='], by simp [opStrings], rfl⟩
  · cases h

/-- A successful anchored match exhibits the word/space/operator/
space/number decomposition of the list it matched. -/
lemma matchAt_some_decomp {l : List Char} {f : String} {op : CmpOp} {tok : String}
    (h : matchAt l = some (f, op, tok)) :
    ∃ sp1 oc sp2 v, l = f.data ++ sp1 ++ oc ++ sp2 ++ tok.data ++ v ∧
      f.data ≠ [] ∧ (∀ c ∈ f.data, isWordChar c) ∧ (∀ c ∈ sp1, isSpaceChar c) ∧
      oc ∈ opStrings ∧ (∀ c ∈ sp2, isSpaceChar c) ∧
      tok.data ≠ [] ∧ (∀ c ∈ tok.data, isNumChar c) := by
  unfold matchAt at h
  by_cases hwe : l.takeWhile isWordChar = []
  · rw [if_pos hwe] at h; cases h
  · rw [if_neg hwe] at h
    cases hop : opAt ((l.dropWhile isWordChar).dropWhile isSpaceChar) with
    | none => rw [hop] at h; cases h
    | some p =>
      obtain ⟨o, r2⟩ := p
      rw [hop] at h
      simp only [] at h
      by_cases hne : (r2.dropWhile isSpaceChar).takeWhile isNumChar = []
      · rw [if_pos hne] at h; cases h
      · rw [if_neg hne] at h
        obtain ⟨oc, hocmem, hoc⟩ := opAt_some hop
        cases h
        refine ⟨(l.dropWhile isWordChar).takeWhile isSpaceChar, oc,
                r2.takeWhile isSpaceChar,
                (r2.dropWhile isSpaceChar).dropWhile isNumChar, ?_, hwe, ?_, ?_,
                hocmem, ?_, hne, ?_⟩
        · have key : l.takeWhile isWordChar ++
              ((l.dropWhile isWordChar).takeWhile isSpaceChar ++
                (oc ++ (r2.takeWhile isSpaceChar ++
                  ((r2.dropWhile isSpaceChar).takeWhile isNumChar ++
                    (r2.dropWhile isSpaceChar).dropWhile isNumChar)))) = l := by
            rw [List.takeWhile_append_dropWhile isNumChar (r2.dropWhile isSpaceChar)]
            rw [List.takeWhile_append_dropWhile isSpaceChar r2]
            rw [← hoc]
            rw [List.takeWhile_append_dropWhile isSpaceChar (l.dropWhile isWordChar)]
            rw [List.takeWhile_append_dropWhile isWordChar l]
          show l = l.takeWhile isWordChar ++ _ ++ oc ++ _ ++
            (r2.dropWhile isSpaceChar).takeWhile isNumChar ++ _
          conv_lhs => rw [← key]
          simp [List.append_assoc]
        · exact fun c hc => List.mem_takeWhile_imp hc
        · exact fun c hc => List.mem_takeWhile_imp hc
        · exact fun c hc => List.mem_takeWhile_imp hc
        · exact fun c hc => List.mem_takeWhile_imp hc

lemma matchAt_nil : matchAt [] = none := rfl

/-- A successful search matched at some start position. -/
lemma regexFind_some_exists {cs : List Char} {r} (h : regexFind cs = some r) :
    ∃ n, matchAt (cs.drop n) = some r := by
  induction cs with
  | nil => cases h
  | cons c t ih =>
    rw [regexFind] at h
    cases hm : matchAt (c :: t) with
    | some r2 =>
      rw [hm] at h
      simp only [] at h
      cases h
      exact ⟨0, hm⟩
    | none =>
      rw [hm] at h
      simp only [] at h
      obtain ⟨n, hn⟩ := ih h
      exact ⟨n + 1, hn⟩

/-- The search returns the match at the leftmost matching start
position. -/
lemma regexFind_eq_of_leftmost {cs : List Char} {r} (n : Nat)
    (hnone : ∀ m < n, matchAt (cs.drop m) = none)
    (hmat : matchAt (cs.drop n) = some r) : regexFind cs = some r := by
  induction n generalizing cs with
  | zero =>
    rw [List.drop_zero] at hmat
    cases cs with
    | nil => rw [matchAt_nil] at hmat; cases hmat
    | cons c t => rw [regexFind, hmat]
  | succ n ih =>
    have h0 := hnone 0 (Nat.succ_pos n)
    rw [List.drop_zero] at h0
    cases cs with
    | nil =>
      rw [List.drop_nil, matchAt_nil] at hmat
      cases hmat
    | cons c t =>
      rw [regexFind, h0]
      exact ih (fun m hm => hnone (m + 1) (Nat.succ_lt_succ hm)) hmat

/-- Any embedded comparison contains an operator character. -/
lemma condDecomp_has_op_char {s : List Char} (h : CondDecomp s) :
    ∃ c ∈ s, c = '>' ∨ c = '<' ∨ c = '=' := by
  obtain ⟨u, f, sp1, o, sp2, num, v, heq, h1, h2, h3, hocm, h4, h5, h6⟩ := h
  subst heq
  simp only [opStrings, List.mem_cons, List.not_mem_nil, or_false] at hocm
  rcases hocm with h | h | h | h | h <;> subst h
  · exact ⟨'>', by simp, Or.inl rfl⟩
  · exact ⟨'<', by simp, Or.inr (Or.inl rfl)⟩
  · exact ⟨'>', by simp, Or.inl rfl⟩
  · exact ⟨'<', by simp, Or.inr (Or.inl rfl)⟩
  · exact ⟨'=', by simp, Or.inr (Or.inr rfl)⟩

/-- Counterexample to **C10** as stated.  First, `"x > ."` contains no
substring of the form `<word> <op> <number>` (`"."` is not a number),
yet `evaluateCondition` does not return false: the regex class
`[\d.]+` accepts `"."` and `std::stod` then throws.  Second, in
`"a > . b > 5"` the first embedded word/op/number comparison is
`b > 5`, which is true on an item with additional label b = 10 — but
the code regex-matches the earlier `a > .` and throws instead of
evaluating it. -/
theorem evaluateCondition_error_instead_of_embedded_comparison :
    evaluateCondition { id := "R", condition := "x > .", action := "block" } {} =
      .error "stod: no conversion" ∧
    evaluateCondition { id := "R", condition := "a > . b > 5", action := "block" }
      { moderation := { labels := { additional_labels := [("b", 10)] } } } =
      .error "stod: no conversion" ∧
    evaluateCondition { id := "R", condition := "a > . b > 5", action := "block" }
      { moderation := { labels := { additional_labels := [("b", 10)] } } } ≠ .ok true := by
  decide

/-- **C10** amended: a condition in which no non-empty word run is
followed (across optional whitespace) by an operator and a non-empty
run of digits and dots makes `evaluateCondition` return false on every
item; otherwise the leftmost position at which the pattern matches
supplies the field, operator and numeric token that are evaluated
(surrounding text is ignored), the comparison being performed when the
token parses and an exception propagating when `std::stod` rejects
it. -/
theorem evaluateCondition_regex_semantics (rule : Rule) (item : ContentItem) :
    (¬ CondDecomp rule.condition.data → evaluateCondition rule item = .ok false) ∧
    (∀ n f op tok,
      (∀ m < n, matchAt (rule.condition.data.drop m) = none) →
      matchAt (rule.condition.data.drop n) = some (f, op, tok) →
      evaluateCondition rule item =
        (match stodOpt tok.data with
         | none => Except.error "stod: no conversion"
         | some t => Except.ok (applyCmp op (getValue f item) t))) := by
  constructor
  · intro hnd
    cases hr : regexFind rule.condition.data with
    | none => unfold evaluateCondition; rw [hr]
    | some r =>
      exfalso
      apply hnd
      obtain ⟨n, hn⟩ := regexFind_some_exists hr
      obtain ⟨f2, op2, tok2⟩ := r
      obtain ⟨sp1, oc, sp2, v, heq, hf, hfw, hsp1, hocm, hsp2, htok, htokn⟩ :=
        matchAt_some_decomp hn
      refine ⟨rule.condition.data.take n, f2.data, sp1, oc, sp2, tok2.data, v, ?_,
        hf, hfw, hsp1, hocm, hsp2, htok, htokn⟩
      conv_lhs => rw [← List.take_append_drop n rule.condition.data]
      rw [heq]
      simp [List.append_assoc]
  · intro n f op tok hnone hmat
    have hfind := regexFind_eq_of_leftmost n hnone hmat
    unfold evaluateCondition
    rw [hfind]

/-- Witness for C10: a condition with no comparison shape evaluates to
false, and a comparison embedded in surrounding junk is the one
evaluated. -/
theorem evaluateCondition_regex_semantics_witness :
    evaluateCondition { id := "R", condition := "no comparison here", action := "block" } {} =
      .ok false ∧
    evaluateCondition { id := "S", condition := "junk drugs >= 0.5 junk", action := "block" }
      { moderation := { labels := { drugs := 1 } } } = .ok true := by
  constructor
  · apply (evaluateCondition_regex_semantics _ _).1
    intro hd
    exact absurd (condDecomp_has_op_char hd)
      (by decide : ¬ ∃ c ∈ "no comparison here".data, c = '>' ∨ c = '<' ∨ c = '=')
  · have h := (evaluateCondition_regex_semantics
      { id := "S", condition := "junk drugs >= 0.5 junk", action := "block" }
      { moderation := { labels := { drugs := 1 } } }).2 5 "drugs" .ge "0.5"
      (by decide) (by decide)
    rw [h]
    decide

/-- A retryable classification implies neither the success nor the
permanent-client-error branch fires. -/
lemma Backend.exec_retryable_flags {o : Backend.CurlOutcome}
    (h : Backend.retryable (Backend.executeRequest o) = true) :
    (Backend.executeRequest o).success = false ∧
    Backend.permanentClientError (Backend.executeRequest o) = false := by
  cases o with
  | err msg => exact ⟨rfl, rfl⟩
  | ok code body =>
    simp only [Backend.executeRequest, Backend.retryable, decide_eq_true_eq,
      Bool.or_eq_true] at h
    simp only [Backend.executeRequest, Backend.permanentClientError]
    constructor
    · simp only [decide_eq_false_iff_not]
      omega
    · simp only [Bool.and_eq_false_iff, decide_eq_false_iff_not]
      omega

/-- A stopping response that is neither a success nor a permanent
client error is not retryable. -/
lemma Backend.stops_not_retryable {r : Backend.HttpResponse} (h : Backend.stops r = true)
    (hs : ¬ r.success = true) (hp : ¬ Backend.permanentClientError r = true) :
    Backend.retryable r = false := by
  simp only [Backend.stops, Bool.or_eq_true, Bool.not_eq_true'] at h
  rcases h with (h | h) | h
  · exact absurd h hs
  · exact absurd h hp
  · exact h

/-- A stopping response ends the loop at the current attempt with no
further sleep, whatever fuel remains. -/
lemma Backend.postAux_stop (oracle : Nat → Backend.CurlOutcome) (d k fuel : Nat)
    (h : Backend.stops (Backend.executeRequest (oracle k)) = true) :
    Backend.postAux oracle d k fuel = (Backend.executeRequest (oracle k), k + 1, []) := by
  cases fuel with
  | zero =>
    rw [Backend.postAux]
    by_cases hs : (Backend.executeRequest (oracle k)).success = true
    · rw [if_pos hs]
    · rw [if_neg hs]
      by_cases hp : Backend.permanentClientError (Backend.executeRequest (oracle k)) = true
      · rw [if_pos hp]
      · rw [if_neg hp]
  | succ fuel2 =>
    rw [Backend.postAux]
    by_cases hs : (Backend.executeRequest (oracle k)).success = true
    · rw [if_pos hs]
    · rw [if_neg hs]
      by_cases hp : Backend.permanentClientError (Backend.executeRequest (oracle k)) = true
      · rw [if_pos hp]
      · rw [if_neg hp]
        rw [if_neg (by simp [Backend.stops_not_retryable h hs hp])]

/-- A retryable response with fuel left sleeps `d * 2^k` and loops. -/
lemma Backend.postAux_retry (oracle : Nat → Backend.CurlOutcome) (d k fuel : Nat)
    (h : Backend.retryable (Backend.executeRequest (oracle k)) = true) :
    Backend.postAux oracle d k (fuel + 1) =
      ((Backend.postAux oracle d (k + 1) fuel).1,
       (Backend.postAux oracle d (k + 1) fuel).2.1,
        d * 2 ^ k :: (Backend.postAux oracle d (k + 1) fuel).2.2) := by
  obtain ⟨hs, hp⟩ := Backend.exec_retryable_flags h
  rw [Backend.postAux]
  rw [if_neg (by simp [hs]), if_neg (by simp [hp]), if_pos h]

/-- After `n ≤ fuel` retryable attempts and a stopping one, the loop
returns the stopping response having slept the doubling backoff
before each retry. -/
lemma Backend.postAux_progress (oracle : Nat → Backend.CurlOutcome) (d : Nat) :
    ∀ n k fuel, n ≤ fuel →
      (∀ j, j < n → Backend.retryable (Backend.executeRequest (oracle (k + j))) = true) →
      Backend.stops (Backend.executeRequest (oracle (k + n))) = true →
      Backend.postAux oracle d k fuel =
        (Backend.executeRequest (oracle (k + n)), k + n + 1,
          (List.range n).map (fun j => d * 2 ^ (k + j))) := by
  intro n
  induction n with
  | zero =>
    intro k fuel hf hr hs
    simpa using Backend.postAux_stop oracle d k fuel (by simpa using hs)
  | succ n ih =>
    intro k fuel hf hr hs
    obtain ⟨fuel2, rfl⟩ : ∃ fuel2, fuel = fuel2 + 1 := ⟨fuel - 1, by omega⟩
    rw [Backend.postAux_retry oracle d k fuel2 (by simpa using hr 0 (Nat.succ_pos n))]
    have hrec := ih (k + 1) fuel2 (by omega)
      (fun j hj => by
        have := hr (j + 1) (Nat.succ_lt_succ hj)
        simpa [Nat.add_assoc, Nat.add_comm 1 j] using this)
      (by simpa [Nat.add_assoc, Nat.add_comm 1 n] using hs)
    rw [hrec]
    have hk : k + 1 + n = k + (n + 1) := by omega
    rw [hk]
    rw [List.range_succ_eq_map, List.map_cons, List.map_map]
    refine congrArg _ (congrArg _ ?_)
    rw [Nat.add_zero]
    refine congrArg _ ?_
    apply List.map_congr_left
    intro j hj
    simp only [Function.comp]
    refine congrArg _ ?_
    refine congrArg _ ?_
    omega

/-- When every attempt up to the fuel limit is retryable, the loop
exhausts its retries and returns the last failed response. -/
lemma Backend.postAux_exhaust (oracle : Nat → Backend.CurlOutcome) (d : Nat) :
    ∀ fuel k, (∀ j, j ≤ fuel → Backend.retryable (Backend.executeRequest (oracle (k + j))) = true) →
      Backend.postAux oracle d k fuel =
        (Backend.executeRequest (oracle (k + fuel)), k + fuel + 1,
          (List.range fuel).map (fun j => d * 2 ^ (k + j))) := by
  intro fuel
  induction fuel with
  | zero =>
    intro k hr
    have h0 := hr 0 (Nat.le_refl 0)
    obtain ⟨hs, hp⟩ := Backend.exec_retryable_flags (by simpa using h0)
    rw [Backend.postAux]
    rw [if_neg (by simp [hs]), if_neg (by simp [hp])]
    simp
  | succ fuel ih =>
    intro k hr
    rw [Backend.postAux_retry oracle d k fuel (by simpa using hr 0 (Nat.zero_le _))]
    have hrec := ih (k + 1) (fun j hj => by
      have := hr (j + 1) (Nat.succ_le_succ hj)
      simpa [Nat.add_assoc, Nat.add_comm 1 j] using this)
    rw [hrec]
    have hk : k + 1 + fuel = k + (fuel + 1) := by omega
    rw [hk]
    rw [List.range_succ_eq_map, List.map_cons, List.map_map]
    refine congrArg _ (congrArg _ ?_)
    rw [Nat.add_zero]
    refine congrArg _ ?_
    apply List.map_congr_left
    intro j hj
    simp only [Function.comp]
    refine congrArg _ ?_
    refine congrArg _ ?_
    omega

/-- Counterexample to **C1** as stated: on a transport that answers
503 on every attempt, `post` retries (4 attempts, sleeping 1000, 2000
and 4000 ms) but `get` performs exactly one attempt, sleeps nothing,
and returns the failed 503 response — `get` has no retry loop, so the
claim's "both entry points" is false. -/
theorem get_does_not_retry :
    Backend.getRequest (fun _ => .ok 503 "unavailable") =
      ({ statusCode := 503, body := "unavailable", success := false }, 1, []) ∧
    Backend.post (fun _ => .ok 503 "unavailable") 3 1000 =
      ({ statusCode := 503, body := "unavailable", success := false }, 4, [1000, 2000, 4000]) := by
  decide

/-- **C1** amended: `post` implements the retry policy exactly — a 2xx
response returns immediately; a 4xx other than 429 returns
immediately; a 429/5xx/transport-failure response is retried up to
`maxRetries` times, sleeping `retryDelayMs * 2^(attempt-1)` before
each retry, and after exhausting retries the last failed response is
returned rather than an exception thrown.  `get`, however, performs
exactly one attempt and returns its classification with no retry and
no sleep. -/
theorem http_retry_policy (oracle : Nat → Backend.CurlOutcome) (maxRetries retryDelayMs : Nat) :
    ((Backend.executeRequest (oracle 0)).success = true →
      Backend.post oracle maxRetries retryDelayMs = (Backend.executeRequest (oracle 0), 1, [])) ∧
    (Backend.permanentClientError (Backend.executeRequest (oracle 0)) = true →
      Backend.post oracle maxRetries retryDelayMs = (Backend.executeRequest (oracle 0), 1, [])) ∧
    (∀ n, n ≤ maxRetries →
      (∀ j, j < n → Backend.retryable (Backend.executeRequest (oracle j)) = true) →
      Backend.stops (Backend.executeRequest (oracle n)) = true →
      Backend.post oracle maxRetries retryDelayMs =
        (Backend.executeRequest (oracle n), n + 1,
          (List.range n).map (fun j => retryDelayMs * 2 ^ j))) ∧
    ((∀ j, j ≤ maxRetries → Backend.retryable (Backend.executeRequest (oracle j)) = true) →
      Backend.post oracle maxRetries retryDelayMs =
        (Backend.executeRequest (oracle maxRetries), maxRetries + 1,
          (List.range maxRetries).map (fun j => retryDelayMs * 2 ^ j))) ∧
    Backend.getRequest oracle = (Backend.executeRequest (oracle 0), 1, []) := by
  refine ⟨?_, ?_, ?_, ?_, rfl⟩
  · intro hs
    unfold Backend.post
    exact Backend.postAux_stop oracle _ 0 maxRetries (by simp [Backend.stops, hs])
  · intro hp
    unfold Backend.post
    exact Backend.postAux_stop oracle _ 0 maxRetries (by simp [Backend.stops, hp])
  · intro n hn hr hstop
    unfold Backend.post
    have h := Backend.postAux_progress oracle retryDelayMs n 0 maxRetries hn
      (fun j hj => by simpa using hr j hj) (by simpa using hstop)
    simpa using h
  · intro hr
    unfold Backend.post
    have h := Backend.postAux_exhaust oracle retryDelayMs maxRetries 0
      (fun j hj => by simpa using hr j hj)
    simpa using h

/-- Witness for C1: two 503 answers then a 200; `post` returns the 200
on the third attempt having slept 1000 then 2000 ms. -/
theorem http_retry_policy_witness :
    Backend.post (fun k => if k < 2 then .ok 503 "" else .ok 200 "done") 3 1000 =
      (Backend.executeRequest (.ok 200 "done"), 3, [1000, 2000]) := by
  have h := (http_retry_policy (fun k => if k < 2 then .ok 503 "" else .ok 200 "done")
    3 1000).2.2.1 2 (by decide) (fun j hj => by interval_cases j <;> decide) (by decide)
  rw [h]
  decide


lemma exceptBind_ok {γ α β : Type} (a : α) (f : α → Except γ β) :
    (Except.ok a : Except γ α) >>= f = f a := rfl

lemma exceptBind_err {γ α β : Type} (e : γ) (f : α → Except γ β) :
    (Except.error e : Except γ α) >>= f = Except.error e := rfl

lemma exceptBind_pureArg {γ α β : Type} (a : α) (f : α → Except γ β) :
    (pure a : Except γ α) >>= f = f a := rfl

lemma mapInsert_lookup_self (m : List (String × ℚ)) (k : String) (v : ℚ) :
    (mapInsert m k v).lookup k = some v := by
  induction m with
  | nil => simp [mapInsert, List.lookup]
  | cons p rest ih =>
    by_cases hk : p.1 = k
    · simp [mapInsert, hk, List.lookup]
    · obtain ⟨k2, v2⟩ := p
      simp only [mapInsert]
      rw [if_neg hk]
      have hbeq : (k == k2) = false := beq_eq_false_iff_ne.mpr (fun h2 => hk h2.symm)
      simp only [List.lookup, hbeq]
      exact ih
lemma mapInsert_lookup_ne (m : List (String × ℚ)) (k k2 : String) (v : ℚ) (h : k2 ≠ k) :
    (mapInsert m k v).lookup k2 = m.lookup k2 := by
  induction m with
  | nil => simp [mapInsert, List.lookup, beq_eq_false_iff_ne.mpr h]
  | cons p rest ih =>
    obtain ⟨k3, v3⟩ := p
    by_cases hk : k3 = k
    · subst hk
      simp only [mapInsert, if_pos rfl]
      simp only [List.lookup, beq_eq_false_iff_ne.mpr h]
    · simp only [mapInsert, if_neg hk]
      by_cases hk2 : k2 = k3
      · subst hk2
        simp only [List.lookup, beq_self_eq_true]
      · have hbeq : (k2 == k3) = false := beq_eq_false_iff_ne.mpr hk2
        simp only [List.lookup, hbeq]
        exact ih

lemma applyLabelPair_sexual_ne (acc : ModerationLabels) (p : String × ℚ)
    (h : p.1 ≠ "sexual") : (applyLabelPair acc p).sexual = acc.sexual := by
  unfold applyLabelPair
  rw [if_neg h]
  split_ifs <;> rfl

lemma applyLabelPair_violence_ne (acc : ModerationLabels) (p : String × ℚ)
    (h : p.1 ≠ "violence") : (applyLabelPair acc p).violence = acc.violence := by
  unfold applyLabelPair
  split_ifs with h1 h2 <;> first | rfl | exact absurd h2 h
  
lemma applyLabelPair_hate_ne (acc : ModerationLabels) (p : String × ℚ)
    (h : p.1 ≠ "hate") : (applyLabelPair acc p).hate = acc.hate := by
  unfold applyLabelPair
  split_ifs with h1 h2 h3 <;> first | rfl | exact absurd h3 h

lemma applyLabelPair_drugs_ne (acc : ModerationLabels) (p : String × ℚ)
    (h : p.1 ≠ "drugs") : (applyLabelPair acc p).drugs = acc.drugs := by
  unfold applyLabelPair
  split_ifs with h1 h2 h3 h4 <;> first | rfl | exact absurd h4 h

lemma applyLabelPair_additional_ne (acc : ModerationLabels) (p : String × ℚ) (lab : String)
    (h : p.1 ≠ lab) :
    ((applyLabelPair acc p).additional_labels).lookup lab = acc.additional_labels.lookup lab := by
  unfold applyLabelPair
  split_ifs <;> first | rfl | exact mapInsert_lookup_ne _ _ _ _ (fun h2 => h h2.symm)

lemma applyLabelPairs_cons (ls : ModerationLabels) (p : String × ℚ) (rest : List (String × ℚ)) :
    applyLabelPairs ls (p :: rest) = applyLabelPairs (applyLabelPair ls p) rest := rfl

lemma applyLabelPairs_sexual_absent (pairs : List (String × ℚ)) :
    ∀ ls, (∀ p ∈ pairs, p.1 ≠ "sexual") → (applyLabelPairs ls pairs).sexual = ls.sexual := by
  induction pairs with
  | nil => intro ls h; rfl
  | cons p rest ih =>
    intro ls h
    rw [applyLabelPairs_cons, ih _ (fun q hq => h q (List.mem_cons_of_mem p hq))]
    exact applyLabelPair_sexual_ne ls p (h p (List.mem_cons_self p rest))

lemma applyLabelPairs_violence_absent (pairs : List (String × ℚ)) :
    ∀ ls, (∀ p ∈ pairs, p.1 ≠ "violence") → (applyLabelPairs ls pairs).violence = ls.violence := by
  induction pairs with
  | nil => intro ls h; rfl
  | cons p rest ih =>
    intro ls h
    rw [applyLabelPairs_cons, ih _ (fun q hq => h q (List.mem_cons_of_mem p hq))]
    exact applyLabelPair_violence_ne ls p (h p (List.mem_cons_self p rest))

lemma applyLabelPairs_hate_absent (pairs : List (String × ℚ)) :
    ∀ ls, (∀ p ∈ pairs, p.1 ≠ "hate") → (applyLabelPairs ls pairs).hate = ls.hate := by
  induction pairs with
  | nil => intro ls h; rfl
  | cons p rest ih =>
    intro ls h
    rw [applyLabelPairs_cons, ih _ (fun q hq => h q (List.mem_cons_of_mem p hq))]
    exact applyLabelPair_hate_ne ls p (h p (List.mem_cons_self p rest))

lemma applyLabelPairs_drugs_absent (pairs : List (String × ℚ)) :
    ∀ ls, (∀ p ∈ pairs, p.1 ≠ "drugs") → (applyLabelPairs ls pairs).drugs = ls.drugs := by
  induction pairs with
  | nil => intro ls h; rfl
  | cons p rest ih =>
    intro ls h
    rw [applyLabelPairs_cons, ih _ (fun q hq => h q (List.mem_cons_of_mem p hq))]
    exact applyLabelPair_drugs_ne ls p (h p (List.mem_cons_self p rest))

lemma applyLabelPairs_additional_absent (pairs : List (String × ℚ)) (lab : String) :
    ∀ ls, (∀ p ∈ pairs, p.1 ≠ lab) →
      (applyLabelPairs ls pairs).additional_labels.lookup lab =
        ls.additional_labels.lookup lab := by
  induction pairs with
  | nil => intro ls h; rfl
  | cons p rest ih =>
    intro ls h
    rw [applyLabelPairs_cons, ih _ (fun q hq => h q (List.mem_cons_of_mem p hq))]
    exact applyLabelPair_additional_ne ls p lab (h p (List.mem_cons_self p rest))

lemma applyLabelPairs_sexual_mem (pairs : List (String × ℚ)) (c : ℚ)
    (hnd : (pairs.map Prod.fst).Nodup) (hmem : ("sexual", c) ∈ pairs) :
    ∀ ls, (applyLabelPairs ls pairs).sexual = c := by
  induction pairs with
  | nil => cases hmem
  | cons p rest ih =>
    intro ls
    rw [applyLabelPairs_cons]
    rcases List.mem_cons.mp hmem with heq | hrest
    · subst heq
      have habs : ∀ q ∈ rest, q.1 ≠ "sexual" := by
        intro q hq h
        simp only [List.map_cons, List.nodup_cons] at hnd
        exact hnd.1 (h ▸ List.mem_map_of_mem Prod.fst hq)
      rw [applyLabelPairs_sexual_absent rest _ habs]
      simp [applyLabelPair]
    · have hnd2 : (rest.map Prod.fst).Nodup := by
        simp only [List.map_cons, List.nodup_cons] at hnd
        exact hnd.2
      exact ih hnd2 hrest _

lemma applyLabelPairs_violence_mem (pairs : List (String × ℚ)) (c : ℚ)
    (hnd : (pairs.map Prod.fst).Nodup) (hmem : ("violence", c) ∈ pairs) :
    ∀ ls, (applyLabelPairs ls pairs).violence = c := by
  induction pairs with
  | nil => cases hmem
  | cons p rest ih =>
    intro ls
    rw [applyLabelPairs_cons]
    rcases List.mem_cons.mp hmem with heq | hrest
    · subst heq
      have habs : ∀ q ∈ rest, q.1 ≠ "violence" := by
        intro q hq h
        simp only [List.map_cons, List.nodup_cons] at hnd
        exact hnd.1 (h ▸ List.mem_map_of_mem Prod.fst hq)
      rw [applyLabelPairs_violence_absent rest _ habs]
      simp [applyLabelPair]
    · have hnd2 : (rest.map Prod.fst).Nodup := by
        simp only [List.map_cons, List.nodup_cons] at hnd
        exact hnd.2
      exact ih hnd2 hrest _

lemma applyLabelPairs_hate_mem (pairs : List (String × ℚ)) (c : ℚ)
    (hnd : (pairs.map Prod.fst).Nodup) (hmem : ("hate", c) ∈ pairs) :
    ∀ ls, (applyLabelPairs ls pairs).hate = c := by
  induction pairs with
  | nil => cases hmem
  | cons p rest ih =>
    intro ls
    rw [applyLabelPairs_cons]
    rcases List.mem_cons.mp hmem with heq | hrest
    · subst heq
      have habs : ∀ q ∈ rest, q.1 ≠ "hate" := by
        intro q hq h
        simp only [List.map_cons, List.nodup_cons] at hnd
        exact hnd.1 (h ▸ List.mem_map_of_mem Prod.fst hq)
      rw [applyLabelPairs_hate_absent rest _ habs]
      simp [applyLabelPair]
    · have hnd2 : (rest.map Prod.fst).Nodup := by
        simp only [List.map_cons, List.nodup_cons] at hnd
        exact hnd.2
      exact ih hnd2 hrest _

lemma applyLabelPairs_drugs_mem (pairs : List (String × ℚ)) (c : ℚ)
    (hnd : (pairs.map Prod.fst).Nodup) (hmem : ("drugs", c) ∈ pairs) :
    ∀ ls, (applyLabelPairs ls pairs).drugs = c := by
  induction pairs with
  | nil => cases hmem
  | cons p rest ih =>
    intro ls
    rw [applyLabelPairs_cons]
    rcases List.mem_cons.mp hmem with heq | hrest
    · subst heq
      have habs : ∀ q ∈ rest, q.1 ≠ "drugs" := by
        intro q hq h
        simp only [List.map_cons, List.nodup_cons] at hnd
        exact hnd.1 (h ▸ List.mem_map_of_mem Prod.fst hq)
      rw [applyLabelPairs_drugs_absent rest _ habs]
      simp [applyLabelPair]
    · have hnd2 : (rest.map Prod.fst).Nodup := by
        simp only [List.map_cons, List.nodup_cons] at hnd
        exact hnd.2
      exact ih hnd2 hrest _

lemma applyLabelPairs_additional_mem (pairs : List (String × ℚ)) (lab : String) (c : ℚ)
    (hnd : (pairs.map Prod.fst).Nodup) (hmem : (lab, c) ∈ pairs)
    (h1 : lab ≠ "sexual") (h2 : lab ≠ "violence") (h3 : lab ≠ "hate") (h4 : lab ≠ "drugs") :
    ∀ ls, (applyLabelPairs ls pairs).additional_labels.lookup lab = some c := by
  induction pairs with
  | nil => cases hmem
  | cons p rest ih =>
    intro ls
    rw [applyLabelPairs_cons]
    rcases List.mem_cons.mp hmem with heq | hrest
    · subst heq
      have habs : ∀ q ∈ rest, q.1 ≠ lab := by
        intro q hq h
        simp only [List.map_cons, List.nodup_cons] at hnd
        exact hnd.1 (h ▸ List.mem_map_of_mem Prod.fst hq)
      rw [applyLabelPairs_additional_absent rest lab _ habs]
      simp only [applyLabelPair, if_neg h1, if_neg h2, if_neg h3, if_neg h4]
      exact mapInsert_lookup_self _ _ _
    · have hnd2 : (rest.map Prod.fst).Nodup := by
        simp only [List.map_cons, List.nodup_cons] at hnd
        exact hnd.2
      exact ih hnd2 hrest _

lemma stampDecision_moderation (l : List Rule) (it : ContentItem) :
    (stampDecision l it).moderation = it.moderation := by
  cases l <;> rfl

lemma stampDecision_ai_detection (l : List Rule) (it : ContentItem) :
    (stampDecision l it).ai_detection = it.ai_detection := by
  cases l <;> rfl

lemma stampDecision_auto_action (l : List Rule) (it : ContentItem) :
    (stampDecision l it).decision.auto_action =
      (match l.head? with | some r => r.action | none => "allow") := by
  cases l <;> rfl

lemma getMatchingRules_subset (rules : List Rule) (item : ContentItem) (l : List Rule)
    (h : getMatchingRules rules item = .ok l) : ∀ r ∈ l, r ∈ rules := by
  induction rules generalizing l with
  | nil =>
    rw [getMatchingRules] at h
    cases h
    intro r hr
    cases hr
  | cons r rs ih =>
    rw [getMatchingRules] at h
    by_cases hen : r.enabled = false
    · rw [if_pos hen] at h
      exact fun r2 hr2 => List.mem_cons_of_mem r (ih l h r2 hr2)
    · rw [if_neg hen] at h
      by_cases hsc : r.subreddit ≠ "" ∧ r.subreddit ≠ item.subreddit
      · rw [if_pos hsc] at h
        exact fun r2 hr2 => List.mem_cons_of_mem r (ih l h r2 hr2)
      · rw [if_neg hsc] at h
        cases hc : evaluateCondition r item with
        | error e => rw [hc] at h; cases h
        | ok b =>
          rw [hc] at h
          cases b with
          | false => exact fun r2 hr2 => List.mem_cons_of_mem r (ih l h r2 hr2)
          | true =>
            cases hgm : getMatchingRules rs item with
            | error e => rw [hgm] at h; cases h
            | ok l2 =>
              rw [hgm] at h
              cases h
              intro r2 hr2
              rcases List.mem_cons.mp hr2 with heq | hmem
              · exact heq ▸ List.mem_cons_self r rs
              · exact List.mem_cons_of_mem r (ih l2 hgm r2 hmem)

lemma processItem_tail_inv (env : DetectorEnv) (rules : List Rule)
    (storage : List ContentItem) (P : ContentItem × ResultCache) (res : ProcResult)
    (h : (getMatchingRules rules P.1 >>= fun matchingRules =>
          pure { item := stampDecision matchingRules P.1, cache := P.2,
                 storage := if env.storageOk = true
                   then storage ++ [stampDecision matchingRules P.1] else storage,
                 autoWrites := 1 } : Except String ProcResult) = .ok res) :
    ∃ it2 l, getMatchingRules rules it2 = .ok l ∧
      res.item = stampDecision l it2 ∧ res.autoWrites = 1 ∧
      res.storage = (if env.storageOk then storage ++ [res.item] else storage) := by
  cases hgm : getMatchingRules rules P.1 with
  | error e =>
    rw [hgm] at h
    simp only [exceptBind_err] at h
    cases h
  | ok l =>
    rw [hgm] at h
    simp only [exceptBind_ok] at h
    simp only [pure, Except.pure] at h
    cases h
    exact ⟨P.1, l, hgm, rfl, rfl, rfl⟩

lemma processItem_ok_inv (env : DetectorEnv) (rules : List Rule) (cache : ResultCache)
    (storage : List ContentItem) (now : ℚ) (item : ContentItem) (res : ProcResult)
    (h : processItem env rules cache storage now item = .ok res) :
    ∃ it2 l, getMatchingRules rules it2 = .ok l ∧
      res.item = stampDecision l it2 ∧ res.autoWrites = 1 ∧
      res.storage = (if env.storageOk then storage ++ [res.item] else storage) := by
  unfold processItem at h
  by_cases hg1 : item.content_type = "text" ∧ item.text.isSome = true
  · rw [if_pos hg1] at h
    cases htb : textBlock env item with
    | error e =>
      rw [htb] at h
      simp only [exceptBind_err] at h
      cases h
    | ok it1 =>
      rw [htb] at h
      simp only [exceptBind_ok] at h
      exact processItem_tail_inv env rules storage _ res h
  · rw [if_neg hg1] at h
    simp only [exceptBind_pureArg] at h
    exact processItem_tail_inv env rules storage _ res h

lemma imageBlock_moderator_error (env : DetectorEnv) (cache : ResultCache) (now : ℚ)
    (item : ContentItem) (p : String) (bytes : List Nat) (e : String)
    (hpath : item.image_path = some p)
    (hread : env.readFile p = some bytes)
    (hmiss : cacheGet cache (env.hashHex bytes) = none)
    (hthrow : env.imageModerator bytes "image/jpeg" = .error e) :
    imageBlock env cache now item = (item, cache) := by
  simp only [imageBlock, hpath, hread, hmiss, hthrow]

lemma processItem_image_run (env : DetectorEnv) (rules : List Rule) (cache : ResultCache)
    (storage : List ContentItem) (now : ℚ) (item : ContentItem) (l : List Rule)
    (hg1 : ¬ (item.content_type = "text" ∧ item.text.isSome = true))
    (hg2 : item.content_type = "image" ∧ item.image_path.isSome = true)
    (hgm : getMatchingRules rules (imageBlock env cache now item).1 = .ok l) :
    processItem env rules cache storage now item =
      .ok { item := stampDecision l (imageBlock env cache now item).1,
            cache := (imageBlock env cache now item).2,
            storage := if env.storageOk then
              storage ++ [stampDecision l (imageBlock env cache now item).1] else storage,
            autoWrites := 1 } := by
  unfold processItem
  rw [if_neg hg1]
  simp only [exceptBind_pureArg]
  rw [if_pos hg2]
  simp only [hgm, exceptBind_ok]
  rfl

lemma textBlock_ok (env : DetectorEnv) (item : ContentItem) (s : String)
    (td : TextDetectResult) (tm : TextModerationResult)
    (htext : item.text = some s)
    (htd : env.textDetector s = .ok td) (htm : env.textModerator s = .ok tm) :
    textBlock env item = .ok
      { item with
        ai_detection :=
          { model := "desklib/ai-text-detector-v1.01", ai_score := td.ai_score,
            label := td.label, confidence := td.confidence },
        moderation :=
          { provider := "hive",
            labels := applyLabelPairs item.moderation.labels tm.labels } } := by
  unfold textBlock
  rw [htext]
  simp only [Option.getD_some, htd, htm, Except.bind]
  rfl

lemma processItem_text_run (env : DetectorEnv) (rules : List Rule) (cache : ResultCache)
    (storage : List ContentItem) (now : ℚ) (item it2 : ContentItem) (l : List Rule)
    (hct : item.content_type = "text") (htext : item.text.isSome)
    (htb : textBlock env item = .ok it2)
    (hct2 : it2.content_type = "text")
    (hgm : getMatchingRules rules it2 = .ok l) :
    processItem env rules cache storage now item =
      .ok { item := stampDecision l it2, cache := cache,
            storage := if env.storageOk then storage ++ [stampDecision l it2] else storage,
            autoWrites := 1 } := by
  unfold processItem
  rw [if_pos ⟨hct, htext⟩, htb]
  simp only [exceptBind_ok]
  rw [if_neg (c := it2.content_type = "image" ∧ it2.image_path.isSome = true) (by simp [hct2])]
  simp only [hgm, exceptBind_ok]
  rfl

/-- Counterexample to **C2** as stated: the text-detection block of
`ModerationEngine::processItem` has no try/catch, so an exception
thrown by the text AI detector propagates out of `processItem` instead
of being caught and logged — the item is dropped, not processed with
default scores. -/
theorem processItem_propagates_text_detector_exception :
    processItem
      { textDetector := fun _ => .error "detector crashed",
        textModerator := fun _ => .ok {}, imageModerator := fun _ _ => .ok {},
        readFile := fun _ => none, hashHex := fun _ => "", storageOk := true }
      [] {} [] 0 { content_type := "text", text := some "hello" } =
      .error "detector crashed" := rfl

/-- **C2** amended: only the image block of `processItem` sits in a
try/catch.  When the image moderator throws, the exception is caught,
the moderation scores keep their prior (default 0.0) values, nothing
is cached, and processing continues through rule evaluation and
persistence; exceptions of the text detector and text moderator,
however, propagate to the caller (see the counterexample). -/
theorem processItem_image_error_contained (env : DetectorEnv) (rules : List Rule)
    (cache : ResultCache) (storage : List ContentItem) (now : ℚ) (item : ContentItem)
    (p : String) (bytes : List Nat) (e : String) (l : List Rule)
    (hct : item.content_type = "image")
    (hpath : item.image_path = some p)
    (hread : env.readFile p = some bytes)
    (hmiss : cacheGet cache (env.hashHex bytes) = none)
    (hthrow : env.imageModerator bytes "image/jpeg" = .error e)
    (hgm : getMatchingRules rules item = .ok l) :
    processItem env rules cache storage now item =
      .ok { item := stampDecision l item, cache := cache,
            storage := if env.storageOk then storage ++ [stampDecision l item] else storage,
            autoWrites := 1 } ∧
    (stampDecision l item).moderation = item.moderation ∧
    (stampDecision l item).decision.auto_action =
      (match l.head? with | some r => r.action | none => "allow") := by
  have hg1 : ¬ (item.content_type = "text" ∧ item.text.isSome = true) := by
    simp [hct]
  have hg2 : item.content_type = "image" ∧ item.image_path.isSome = true :=
    ⟨hct, by rw [hpath]; rfl⟩
  have hib := imageBlock_moderator_error env cache now item p bytes e hpath hread hmiss hthrow
  have hrun := processItem_image_run env rules cache storage now item l hg1 hg2
    (by rw [hib]; exact hgm)
  rw [hib] at hrun
  exact ⟨hrun, stampDecision_moderation l item, stampDecision_auto_action l item⟩

/-- Witness for C2: a throwing image moderator on a fresh cache; the
item is still stamped `allow` and persisted with untouched scores. -/
theorem processItem_image_error_contained_witness :
    processItem
      { textDetector := fun _ => .ok {}, textModerator := fun _ => .ok {},
        imageModerator := fun _ _ => .error "api down",
        readFile := fun _ => some [1, 2, 3], hashHex := fun _ => "h", storageOk := true }
      [] {} [] 0 { content_type := "image", image_path := some "/img.jpg" } =
      .ok { item := stampDecision [] { content_type := "image", image_path := some "/img.jpg" },
            cache := {},
            storage := [stampDecision [] { content_type := "image", image_path := some "/img.jpg" }],
            autoWrites := 1 } ∧
    (stampDecision [] { content_type := "image", image_path := some "/img.jpg" }).moderation =
      ({ content_type := "image", image_path := some "/img.jpg" } : ContentItem).moderation ∧
    (stampDecision [] { content_type := "image", image_path := some "/img.jpg" }).decision.auto_action = "allow" :=
  processItem_image_error_contained
    { textDetector := fun _ => .ok {}, textModerator := fun _ => .ok {},
      imageModerator := fun _ _ => .error "api down",
      readFile := fun _ => some [1, 2, 3], hashHex := fun _ => "h", storageOk := true }
    [] {} [] 0 { content_type := "image", image_path := some "/img.jpg" }
    "/img.jpg" [1, 2, 3] "api down" [] rfl rfl rfl rfl rfl rfl

/-- Counterexample to **C3** as stated: the text branch runs only when
`content_type` equals exactly `"text"`.  On an item with
`content_type = "both"` and text present, neither the text AI detector
nor the text policy moderator is invoked: `AIDetection` stays at its
defaults and no label is mapped, although the detectors would have
returned scores. -/
theorem processItem_both_skips_text_detection :
    (processItem
      { textDetector := fun _ => .ok { ai_score := 7/10, label := "ai_generated", confidence := 9/10 },
        textModerator := fun _ => .ok { labels := [("drugs", 4/5)] },
        imageModerator := fun _ _ => .ok {}, readFile := fun _ => none,
        hashHex := fun _ => "", storageOk := true }
      [] {} [] 0 { content_type := "both", text := some "generated text" }).map
      (fun r => (r.item.ai_detection.model, r.item.ai_detection.ai_score,
                 r.item.moderation.labels.drugs, r.item.moderation.provider)) =
      .ok ("", 0, 0, "") ∧
    (("", (0 : ℚ), (0 : ℚ), "") : String × ℚ × ℚ × String) ≠
      ("desklib/ai-text-detector-v1.01", 7/10, 4/5, "hive") := by
  constructor
  · rfl
  · decide

/-- **C3** amended: for items whose `content_type` is exactly `"text"`
(not `"both"`) with text present, `processItem` calls the text AI
detector and stamps `AIDetection` with the fixed model name and the
returned score, label and confidence, and calls the text policy
moderator, mapping each returned (label, confidence) pair into the
named slot sexual/violence/hate/drugs when the label matches one of
those names and into the additional-labels map otherwise. -/
theorem processItem_text_path (env : DetectorEnv) (rules : List Rule) (cache : ResultCache)
    (storage : List ContentItem) (now : ℚ) (item : ContentItem) (s : String)
    (td : TextDetectResult) (tm : TextModerationResult) (l : List Rule)
    (hct : item.content_type = "text") (htext : item.text = some s)
    (htd : env.textDetector s = .ok td) (htm : env.textModerator s = .ok tm)
    (hgm : getMatchingRules rules
      { item with
        ai_detection :=
          { model := "desklib/ai-text-detector-v1.01", ai_score := td.ai_score,
            label := td.label, confidence := td.confidence },
        moderation :=
          { provider := "hive",
            labels := applyLabelPairs item.moderation.labels tm.labels } } = .ok l) :
    ∃ res, processItem env rules cache storage now item = .ok res ∧
      res.item.ai_detection =
        { model := "desklib/ai-text-detector-v1.01", ai_score := td.ai_score,
          label := td.label, confidence := td.confidence } ∧
      res.item.moderation.provider = "hive" ∧
      res.item.moderation.labels = applyLabelPairs item.moderation.labels tm.labels ∧
      ((tm.labels.map Prod.fst).Nodup → ∀ lab c, (lab, c) ∈ tm.labels →
        ((lab = "sexual" → res.item.moderation.labels.sexual = c) ∧
         (lab = "violence" → res.item.moderation.labels.violence = c) ∧
         (lab = "hate" → res.item.moderation.labels.hate = c) ∧
         (lab = "drugs" → res.item.moderation.labels.drugs = c) ∧
         (lab ≠ "sexual" → lab ≠ "violence" → lab ≠ "hate" → lab ≠ "drugs" →
           res.item.moderation.labels.additional_labels.lookup lab = some c))) := by
  have htb := textBlock_ok env item s td tm htext htd htm
  have hrun := processItem_text_run env rules cache storage now item _ l hct
    (by rw [htext]; rfl) htb hct hgm
  refine ⟨_, hrun, ?_, ?_, ?_, ?_⟩
  · rw [stampDecision_ai_detection]
  · rw [stampDecision_moderation]
  · rw [stampDecision_moderation]
  · intro hnd lab c hmem
    have hlab : (stampDecision l
        { item with
          ai_detection :=
            { model := "desklib/ai-text-detector-v1.01", ai_score := td.ai_score,
              label := td.label, confidence := td.confidence },
          moderation :=
            { provider := "hive",
              labels := applyLabelPairs item.moderation.labels tm.labels } }).moderation.labels =
        applyLabelPairs item.moderation.labels tm.labels := by
      rw [stampDecision_moderation]
    rw [hlab]
    refine ⟨fun h => ?_, fun h => ?_, fun h => ?_, fun h => ?_, fun h1 h2 h3 h4 => ?_⟩
    · subst h; exact applyLabelPairs_sexual_mem tm.labels c hnd hmem _
    · subst h; exact applyLabelPairs_violence_mem tm.labels c hnd hmem _
    · subst h; exact applyLabelPairs_hate_mem tm.labels c hnd hmem _
    · subst h; exact applyLabelPairs_drugs_mem tm.labels c hnd hmem _
    · exact applyLabelPairs_additional_mem tm.labels lab c hnd hmem h1 h2 h3 h4 _

/-- Witness for C3: a text item with moderator labels drugs=0.8 and
spam=0.2; drugs lands in the named slot, spam in the additional map. -/
theorem processItem_text_path_witness :
    ∃ res, processItem
      { textDetector := fun _ => .ok { ai_score := 7/10, label := "ai_generated", confidence := 9/10 },
        textModerator := fun _ => .ok { labels := [("drugs", 4/5), ("spam", 1/5)] },
        imageModerator := fun _ _ => .ok {}, readFile := fun _ => none,
        hashHex := fun _ => "", storageOk := true }
      [] {} [] 0 { content_type := "text", text := some "buy pills now" } = .ok res ∧
      res.item.ai_detection.ai_score = 7/10 ∧
      res.item.moderation.labels.drugs = 4/5 ∧
      res.item.moderation.labels.additional_labels.lookup "spam" = some (1/5) := by
  obtain ⟨res, hrun, hai, hprov, hlab, hmap⟩ := processItem_text_path
    { textDetector := fun _ => .ok { ai_score := 7/10, label := "ai_generated", confidence := 9/10 },
      textModerator := fun _ => .ok { labels := [("drugs", 4/5), ("spam", 1/5)] },
      imageModerator := fun _ _ => .ok {}, readFile := fun _ => none,
      hashHex := fun _ => "", storageOk := true }
    [] {} [] 0 { content_type := "text", text := some "buy pills now" } "buy pills now"
    { ai_score := 7/10, label := "ai_generated", confidence := 9/10 }
    { labels := [("drugs", 4/5), ("spam", 1/5)] } [] rfl rfl rfl rfl rfl
  have hd := (hmap (by decide) "drugs" (4/5) (by decide)).2.2.2.1 rfl
  have hs := (hmap (by decide) "spam" (1/5) (by decide)).2.2.2.2
    (by decide) (by decide) (by decide) (by decide)
  exact ⟨res, hrun, by rw [hai], hd, hs⟩

/-- Counterexample to **C7** as stated: rule actions are never
validated (`addRule` accepts any string and `loadRulesFromJson`
defaults the action only when the key is missing), so a matching rule
whose action is the empty string makes `processItem` stamp a blank
`auto_action` that is none of allow/block/review. -/
theorem processItem_blank_auto_action :
    (processItem
      { textDetector := fun _ => .ok {}, textModerator := fun _ => .ok {},
        imageModerator := fun _ _ => .ok {}, readFile := fun _ => none,
        hashHex := fun _ => "", storageOk := true }
      [{ id := "r1", condition := "ai_score >= 0", action := "" }] {} [] 0
      { content_type := "other" }).map (fun r => r.item.decision.auto_action) = .ok "" ∧
    "" ∉ ["allow", "block", "review"] := by
  constructor
  · rfl
  · decide

/-- **C7** amended: whenever `processItem` returns normally,
`decision.auto_action` has been assigned exactly once during the pass
and equals either `"allow"` or the action string of some rule of the
rule set; it is therefore non-blank provided every loaded rule carries
a non-blank action, but the code does not enforce membership in
{allow, block, review}. -/
theorem processItem_auto_action_once (env : DetectorEnv) (rules : List Rule)
    (cache : ResultCache) (storage : List ContentItem) (now : ℚ) (item : ContentItem)
    (res : ProcResult)
    (hrun : processItem env rules cache storage now item = .ok res) :
    res.autoWrites = 1 ∧
    (res.item.decision.auto_action = "allow" ∨
      ∃ r ∈ rules, res.item.decision.auto_action = r.action) ∧
    ((∀ r ∈ rules, r.action ≠ "") → res.item.decision.auto_action ≠ "") := by
  obtain ⟨it2, l, hgm, hitem, hw, hst⟩ :=
    processItem_ok_inv env rules cache storage now item res hrun
  refine ⟨hw, ?_, ?_⟩
  · rw [hitem, stampDecision_auto_action]
    cases l with
    | nil => exact Or.inl rfl
    | cons r rest =>
      exact Or.inr ⟨r, getMatchingRules_subset rules it2 _ hgm r (List.mem_cons_self r rest), rfl⟩
  · intro hact
    rw [hitem, stampDecision_auto_action]
    cases l with
    | nil => simp
    | cons r rest =>
      exact hact r (getMatchingRules_subset rules it2 _ hgm r (List.mem_cons_self r rest))

/-- Witness for C7: one matching block rule; the pass writes
`auto_action` once and leaves it non-blank. -/
theorem processItem_auto_action_once_witness :
    ∃ res, processItem
      { textDetector := fun _ => .ok {}, textModerator := fun _ => .ok {},
        imageModerator := fun _ _ => .ok {}, readFile := fun _ => none,
        hashHex := fun _ => "", storageOk := true }
      [{ id := "r1", condition := "ai_score >= 0", action := "block" }] {} [] 0
      { content_type := "other" } = .ok res ∧
      res.autoWrites = 1 ∧ res.item.decision.auto_action ≠ "" := by
  obtain ⟨res, hres⟩ : ∃ res, processItem
      { textDetector := fun _ => .ok {}, textModerator := fun _ => .ok {},
        imageModerator := fun _ _ => .ok {}, readFile := fun _ => none,
        hashHex := fun _ => "", storageOk := true }
      [{ id := "r1", condition := "ai_score >= 0", action := "block" }] {} [] 0
      { content_type := "other" } = .ok res := ⟨_, rfl⟩
  have h := processItem_auto_action_once _ _ _ _ _ _ _ hres
  exact ⟨res, hres, h.1, h.2.2 (by decide)⟩


/-- `operator[]=` with a different key leaves a lookup unchanged. -/
lemma setKey_lookup_ne (fs : List (String × Json)) (k k2 : String) (v : Json) (h : k2 ≠ k) :
    (setKey fs k v).lookup k2 = fs.lookup k2 := by
  induction fs with
  | nil => simp [setKey, List.lookup, beq_eq_false_iff_ne.mpr h]
  | cons p rest ih =>
    obtain ⟨k3, v3⟩ := p
    by_cases hk : k3 = k
    · subst hk
      simp only [setKey, if_pos rfl]
      simp only [List.lookup, beq_eq_false_iff_ne.mpr h]
    · simp only [setKey, if_neg hk]
      by_cases hk2 : k2 = k3
      · subst hk2
        simp only [List.lookup, beq_self_eq_true]
      · have hbeq : (k2 == k3) = false := beq_eq_false_iff_ne.mpr hk2
        simp only [List.lookup, hbeq]
        exact ih

/-- Writing additional labels whose keys avoid `k` leaves the lookup
of `k` unchanged. -/
lemma lookup_foldl_setKey_absent (l : List (String × ℚ)) (k : String) :
    ∀ fs0, (∀ p ∈ l, p.1 ≠ k) →
      (l.foldl (fun fs p => setKey fs p.1 (.num p.2)) fs0).lookup k = fs0.lookup k := by
  induction l with
  | nil => intro fs0 h; rfl
  | cons p rest ih =>
    intro fs0 h
    show (rest.foldl _ (setKey fs0 p.1 (.num p.2))).lookup k = fs0.lookup k
    rw [ih _ (fun q hq => h q (List.mem_cons_of_mem p hq))]
    exact setKey_lookup_ne fs0 p.1 k (.num p.2)
      (fun h2 => h p (List.mem_cons_self p rest) h2.symm)

/-- **C9** amended: for every backend `ContentItem` whose
additional-labels map uses none of the four named label keys,
serializing to the wire form and parsing back succeeds and preserves
`id`, `decision.auto_action` and the four named moderation scores. -/
theorem contentItem_wire_roundtrip (it : Backend.ContentItem)
    (hfree : ∀ p ∈ it.moderation.labels.additional_labels,
      p.1 ≠ "sexual" ∧ p.1 ≠ "violence" ∧ p.1 ≠ "hate" ∧ p.1 ≠ "drugs") :
    (Backend.ContentItem.fromJson (Backend.ContentItem.toJson it)).map
      (fun it2 => (it2.id, it2.decision.auto_action, it2.moderation.labels.sexual,
                   it2.moderation.labels.violence, it2.moderation.labels.hate,
                   it2.moderation.labels.drugs)) =
      .ok (it.id, it.decision.auto_action, it.moderation.labels.sexual,
           it.moderation.labels.violence, it.moderation.labels.hate,
           it.moderation.labels.drugs) := by
  obtain ⟨id, ts, src, sub, author, ct, text, ipath, aid, mod, dec, sv⟩ := it
  obtain ⟨prov, labels⟩ := mod
  obtain ⟨sx, vi, ha, dr, hr2, sh, il, addl⟩ := labels
  simp only at hfree
  have hsx := lookup_foldl_setKey_absent addl "sexual"
    [("sexual", .num sx), ("violence", .num vi), ("hate", .num ha), ("drugs", .num dr)]
    (fun p hp => (hfree p hp).1)
  have hvi := lookup_foldl_setKey_absent addl "violence"
    [("sexual", .num sx), ("violence", .num vi), ("hate", .num ha), ("drugs", .num dr)]
    (fun p hp => (hfree p hp).2.1)
  have hha := lookup_foldl_setKey_absent addl "hate"
    [("sexual", .num sx), ("violence", .num vi), ("hate", .num ha), ("drugs", .num dr)]
    (fun p hp => (hfree p hp).2.2.1)
  have hdr := lookup_foldl_setKey_absent addl "drugs"
    [("sexual", .num sx), ("violence", .num vi), ("hate", .num ha), ("drugs", .num dr)]
    (fun p hp => (hfree p hp).2.2.2)
  simp [List.lookup] at hsx hvi hha hdr
  cases author <;> cases text <;> cases ipath <;>
    simp [Backend.ContentItem.fromJson, Backend.ContentItem.toJson, valueStr, valueNum,
      valueBool, Backend.optStr, Backend.extraLabels, jsonContains, jsonIndex, List.lookup,
      exceptBind_ok, hsx, hvi, hha, hdr, Except.map]
/-- Counterexample to **C9** as stated: `toJson` writes the named
slots first and then copies every additional label into the same
`labels` object with `operator[]`, overwriting on key collision.  An
item with `labels.sexual = 0` and an additional label
`("sexual", 1)` therefore round-trips to an item whose sexual score
is 1, not the original 0. -/
theorem contentItem_roundtrip_label_collision :
    (Backend.ContentItem.fromJson (Backend.ContentItem.toJson
      { id := "i1", moderation := { labels := { sexual := 0, additional_labels := [("sexual", 1)] } } })).map
      (fun it2 => it2.moderation.labels.sexual) = .ok 1 ∧
    (1 : ℚ) ≠ 0 := by
  refine ⟨by decide, by decide⟩

/-- Witness for C9 at a concrete item with an additional label
(`spam`) away from the named keys. -/
theorem contentItem_wire_roundtrip_witness :
    (Backend.ContentItem.fromJson (Backend.ContentItem.toJson
      { id := "i1", author := some "a", text := some "t",
        moderation := { provider := "hive", labels := { sexual := 1/2, drugs := 3/4, additional_labels := [("spam", 1/5)] } },
        decision := { auto_action := "block", rule_id := "r1", threshold_triggered := true } })).map
      (fun it2 => (it2.id, it2.decision.auto_action, it2.moderation.labels.sexual,
                   it2.moderation.labels.violence, it2.moderation.labels.hate,
                   it2.moderation.labels.drugs)) =
      .ok ("i1", "block", 1/2, 0, 0, 3/4) :=
  contentItem_wire_roundtrip
    { id := "i1", author := some "a", text := some "t",
      moderation := { provider := "hive", labels := { sexual := 1/2, drugs := 3/4, additional_labels := [("spam", 1/5)] } },
      decision := { auto_action := "block", rule_id := "r1", threshold_triggered := true } }
    (by decide)

end

end ModAI
